import Mathlib

/-!
# sqls formatter: the layout engine of `internal/formatter/formatter.go`

A shallow embedding of the recursive node-to-node rewrite `Eval` and of the
per-variant formatters, followed by theorems about them.

The packages `ast`, `astutil`, `token`, `lsp` and `parser` are imported by
`formatter.go` but are not part of the translated sources.  What the formatter
uses from them (the node variants, the matcher, the sibling reader, the
synthetic layout nodes, `unshift`, `String()`) is modelled from the
specification's data model and marked as such.
-/

namespace Formatter

/-! ## Tokens and nodes (package `token`, package `ast`) -/

/-- Modelled from the spec: `token.Kind`, the concrete token kind a matcher can
test.  Only `LParen` and `Comma` are named by the formatter's rule table. -/
inductive Kind where
  | SQLKeyword
  | Ident
  | Number
  | Char
  | Whitespace
  | Comma
  | Period
  | LParen
  | RParen
  | Eq
  | Operator
  | Other
  deriving DecidableEq, Repr

/-- Modelled from the spec: `ast.SQLToken`, a single source token: its kind
(`SQLKeyword` is the keyword tag) and its literal text. -/
structure SQLToken where
  Kind : Kind
  Value : String
  deriving DecidableEq, Repr

/-- Modelled from the spec: the synthetic layout nodes, "whitespace,
line-break, one unit of indentation, comma, period, open-paren, close-paren",
produced by the engine itself and never by the parser. -/
inductive Marker where
  | whitespace
  | linebreak
  | indent
  | comma
  | period
  | lparen
  | rparen
  deriving DecidableEq, Repr

/-- Modelled from the spec: `ast.Node`, the tagged union of section 3.

* `Item`, `MultiKeyword`, `Aliased`, `Identifer`, `MemberIdentifer`,
  `Operator`, `Comparison`, `Parenthesis`, `IdentiferList` are the specialized
  variants `Eval` dispatches on (the field names are the ones `formatter.go`
  reads: `RealName`, `AliasedName`, `As`, `IsAs`, `Parent`, `Child`, `Left`,
  `Right`, `Operator`, `Comparison`, `Inner()`, `GetIdentifers()`).
* `Parenthesis` is "an opening marker, an inner sub-tree, a closing marker".
* `MemberIdentifer` is "a parent identifier and a child identifier joined by a
  member-access separator": `period` is that separator token.
* `IdentiferList` is a sequence of identifier-like nodes, "comma-separated in
  source": `idents` is what `GetIdentifers()` returns, `commas` are the comma
  tokens standing between them in the source, in order.
* `TokenList` is the generic composite (any other node with the
  ordered-children capability); `tag` tells the concrete composites apart.
* `ItemWith` is the wrapper the formatters build; it holds ordered fragments.
* `Leaf` is any other bare leaf with no specialized shape.
* `Synthetic` is a layout node of the engine. -/
inductive Node where
  | Item (tok : SQLToken)
  | MultiKeyword (phrase : String)
  | Aliased (RealName : Node) (AliasedName : Node) (As : Node) (IsAs : Bool)
  | Identifer (tok : SQLToken)
  | MemberIdentifer (Parent : Node) (period : SQLToken) (Child : Node)
  | Operator (Left : Node) (Operator : Node) (Right : Node)
  | Comparison (Left : Node) (Comparison : Node) (Right : Node)
  | Parenthesis (lparen : SQLToken) (Inner : Node) (rparen : SQLToken)
  | IdentiferList (idents : List Node) (commas : List SQLToken)
  | TokenList (tag : Nat) (toks : List Node)
  | ItemWith (Toks : List Node)
  | Leaf (tok : SQLToken)
  | Synthetic (m : Marker)

/-- Modelled from the spec: `whitespaceNode`. -/
def whitespaceNode : Node := Node.Synthetic Marker.whitespace
/-- Modelled from the spec: `linebreakNode`. -/
def linebreakNode : Node := Node.Synthetic Marker.linebreak
/-- Modelled from the spec: `indentNode`, one unit of indentation. -/
def indentNode : Node := Node.Synthetic Marker.indent
/-- Modelled from the spec: `commaNode`. -/
def commaNode : Node := Node.Synthetic Marker.comma
/-- Modelled from the spec: `periodNode`. -/
def periodNode : Node := Node.Synthetic Marker.period
/-- Modelled from the spec: `lparenNode`. -/
def lparenNode : Node := Node.Synthetic Marker.lparen
/-- Modelled from the spec: `rparenNode`. -/
def rparenNode : Node := Node.Synthetic Marker.rparen

/-- Modelled from the spec: `unshift(slice, node...)` prepends `node...` to
`slice`. -/
def unshift (slice : List Node) (node : List Node) : List Node :=
  node ++ slice

/-! ## The matcher (package `astutil`) -/

/-- Modelled from the spec: `astutil.NodeMatcher`, "a predicate built from
{candidate keyword-text set, candidate concrete-token-kind set}". -/
structure NodeMatcher where
  ExpectKeyword : List String := []
  ExpectTokens : List Kind := []

/-- Modelled from the spec: the keyword text of a node: the text of an `Item`
tagged as a keyword, or the phrase of a `MultiKeyword`. -/
def keywordText : Node → Option String
  | Node.Item tok => if tok.Kind = Kind.SQLKeyword then some tok.Value else none
  | Node.MultiKeyword phrase => some phrase
  | _ => none

/-- Modelled from the spec: the concrete token kind of a leaf node. -/
def tokenKind : Node → Option Kind
  | Node.Item tok => some tok.Kind
  | Node.Identifer tok => some tok.Kind
  | Node.Leaf tok => some tok.Kind
  | _ => none

/-- Modelled from the spec: `NodeMatcher.IsMatch(node)`: the node's keyword
text is one of the candidate keywords, or its token kind is one of the
candidate kinds.  Pure and stateless. -/
def NodeMatcher.IsMatch (nm : NodeMatcher) (node : Node) : Bool :=
  (match keywordText node with
   | some s => nm.ExpectKeyword.contains s
   | none => false) ||
  (match tokenKind node with
   | some k => nm.ExpectTokens.contains k
   | none => false)

/-! ## The layout environment -/

/-- The `formatEnvironment` of `formatter.go`.  `indentLevel` is a Go `int`;
it is modelled as an unbounded integer (it moves by one unit per node, so the
64-bit range is out of reach of any tree that fits in memory).  The `reader`
field is written by `formatTokenList` and read by no formatter; it is left out
of the state. -/
structure formatEnvironment where
  indentLevel : Int
  deriving DecidableEq, Repr

/-- `indentLevelReset`. -/
def formatEnvironment.indentLevelReset (_e : formatEnvironment) : formatEnvironment :=
  { indentLevel := 0 }

/-- `indentLevelUp`: `e.indentLevel++`. -/
def formatEnvironment.indentLevelUp (e : formatEnvironment) : formatEnvironment :=
  { indentLevel := e.indentLevel + 1 }

/-- `indentLevelDown`: `e.indentLevel--`. -/
def formatEnvironment.indentLevelDown (e : formatEnvironment) : formatEnvironment :=
  { indentLevel := e.indentLevel - 1 }

/-- The loop of `genIndent`: `for i := 0; i < e.indentLevel; i++` appending one
`indentNode` per round; `i` is the loop counter and `nodes` the slice built so
far. -/
def genIndentLoop (level : Int) (i : Int) (nodes : List Node) : List Node :=
  if i < level then genIndentLoop level (i + 1) (nodes ++ [indentNode]) else nodes
termination_by (level - i).toNat
decreasing_by omega

/-- `genIndent`: the loop started at `i = 0` with the empty slice. -/
def formatEnvironment.genIndent (e : formatEnvironment) : List Node :=
  genIndentLoop e.indentLevel 0 []

/-! ## The rule table: leaf formatters -/

/-- `formatItem`: the seven rules, applied in the order of the source.  A block
that updates both `results` and `env` yields the pair of the two, read back
right after it. -/
def formatItem (node : Node) (env : formatEnvironment) : Node × formatEnvironment :=
  let results : List Node := [node]
  let whitespaceAfterMatcher : NodeMatcher :=
    { ExpectKeyword := ["JOIN", "ON", "AND", "OR", "LIMIT"] }
  let results :=
    if whitespaceAfterMatcher.IsMatch node then results ++ [whitespaceNode] else results
  let whitespaceAroundMatcher : NodeMatcher :=
    { ExpectKeyword := ["BETWEEN", "USING"] }
  let results :=
    if whitespaceAroundMatcher.IsMatch node then
      unshift results [whitespaceNode] ++ [whitespaceNode]
    else results
  -- Add an adjustment before the cursor
  let outdentBeforeMatcher : NodeMatcher :=
    { ExpectKeyword :=
        ["FROM", "JOIN", "WHERE", "HAVING", "LIMIT", "UNION", "VALUES", "SET", "EXCEPT"] }
  let st : List Node × formatEnvironment :=
    if outdentBeforeMatcher.IsMatch node then
      let env := env.indentLevelDown
      let results := unshift results env.genIndent
      (unshift results [linebreakNode], env)
    else (results, env)
  let results := st.1
  let env := st.2
  let indentBeforeMatcher : NodeMatcher := { ExpectKeyword := ["ON"] }
  let st : List Node × formatEnvironment :=
    if indentBeforeMatcher.IsMatch node then
      let env := env.indentLevelUp
      let results := unshift results env.genIndent
      (unshift results [linebreakNode], env)
    else (results, env)
  let results := st.1
  let env := st.2
  let linebreakBeforeMatcher : NodeMatcher := { ExpectKeyword := ["AND", "OR"] }
  let results :=
    if linebreakBeforeMatcher.IsMatch node then
      unshift (unshift results env.genIndent) [linebreakNode]
    else results
  -- Add an adjustment after the cursor
  let indentAfterMatcher : NodeMatcher :=
    { ExpectKeyword := ["SELECT", "FROM", "WHERE"], ExpectTokens := [Kind.LParen] }
  let st : List Node × formatEnvironment :=
    if indentAfterMatcher.IsMatch node then
      let results := results ++ [linebreakNode]
      let env := env.indentLevelUp
      (results ++ env.genIndent, env)
    else (results, env)
  let results := st.1
  let env := st.2
  let linebreakAfterMatcher : NodeMatcher := { ExpectTokens := [Kind.Comma] }
  let results :=
    if linebreakAfterMatcher.IsMatch node then
      (results ++ [linebreakNode]) ++ env.genIndent
    else results
  (Node.ItemWith results, env)

/-- The closed set of join phrases of `formatMultiKeyword`. -/
def joinKeywords : List String :=
  ["INNER JOIN", "CROSS JOIN", "OUTER JOIN", "LEFT JOIN", "RIGHT JOIN",
   "LEFT OUTER JOIN", "RIGHT OUTER JOIN"]

/-- `formatMultiKeyword`. -/
def formatMultiKeyword (node : Node) (env : formatEnvironment) : Node × formatEnvironment :=
  let results : List Node := [node]
  let whitespaceAfterMatcher : NodeMatcher := { ExpectKeyword := joinKeywords }
  let results :=
    if whitespaceAfterMatcher.IsMatch node then results ++ [whitespaceNode] else results
  let outdentBeforeMatcher : NodeMatcher := { ExpectKeyword := joinKeywords }
  let st : List Node × formatEnvironment :=
    if outdentBeforeMatcher.IsMatch node then
      let env := env.indentLevelDown
      let results := unshift results env.genIndent
      (unshift results [linebreakNode], env)
    else (results, env)
  let results := st.1
  let env := st.2
  (Node.ItemWith results, env)

/-- `formatIdentifer`: wraps the leaf with no added markers. -/
def formatIdentifer (node : Node) (env : formatEnvironment) : Node × formatEnvironment :=
  (Node.ItemWith [node], env)

/-- `formatNode`: the identity formatter. -/
def formatNode (node : Node) (env : formatEnvironment) : Node × formatEnvironment :=
  (node, env)

/-! ## The dispatcher and the recursive formatters -/

mutual
/-- `Eval`: the type switch of the source.  The arms of the recursive
formatters (`formatAliased`, `formatMemberIdentifer`, `formatOperator`,
`formatComparison`, `formatParenthesis`) carry the body of the formatter they
call; the formatters are restated under their own names below, and each arm is
shown equal to its formatter.  Go evaluates the elements of a slice literal
left to right, so the environment is threaded through the operands in source
order. -/
def Eval : Node → formatEnvironment → Node × formatEnvironment
  | Node.Item tok, env => formatItem (Node.Item tok) env
  | Node.MultiKeyword phrase, env => formatMultiKeyword (Node.MultiKeyword phrase) env
  | Node.Aliased RealName AliasedName As IsAs, env =>
    if IsAs then
      let (r, env) := Eval RealName env
      let (a, env) := Eval AliasedName env
      (Node.ItemWith [r, whitespaceNode, As, whitespaceNode, a], env)
    else
      let (r, env) := Eval RealName env
      let (a, env) := Eval AliasedName env
      (Node.ItemWith [r, whitespaceNode, a], env)
  | Node.Identifer tok, env => formatIdentifer (Node.Identifer tok) env
  | Node.MemberIdentifer Parent _ Child, env =>
    let (p, env) := Eval Parent env
    let (c, env) := Eval Child env
    (Node.ItemWith [p, periodNode, c], env)
  | Node.Operator Left Operator Right, env =>
    let (l, env) := Eval Left env
    let (r, env) := Eval Right env
    (Node.ItemWith [l, whitespaceNode, Operator, whitespaceNode, r], env)
  | Node.Comparison Left Comparison Right, env =>
    let (l, env) := Eval Left env
    let (r, env) := Eval Right env
    (Node.ItemWith [l, whitespaceNode, Comparison, whitespaceNode, r], env)
  | Node.Parenthesis _ Inner _, env =>
    let results : List Node := []
    let results := results ++ [lparenNode]
    let startIndentLevel := env.indentLevel
    let env := env.indentLevelUp
    let results := results ++ [linebreakNode]
    let results := results ++ env.genIndent
    let (inner, env) := Eval Inner env
    let results := results ++ [inner]
    let env : formatEnvironment := { env with indentLevel := startIndentLevel }
    let results := results ++ [linebreakNode]
    let results := results ++ env.genIndent
    let results := results ++ [rparenNode]
    (Node.ItemWith results, env)
  | Node.IdentiferList idents _, env =>
    let (results, env) := formatIdentiferListLoop idents.length idents 0 [] env
    (Node.ItemWith results, env)
  | Node.TokenList tag toks, env =>
    let (results, env) := formatTokenListLoop toks [] env
    (Node.TokenList tag results, env)
  | Node.ItemWith Toks, env =>
    let (results, env) := formatTokenListLoop Toks [] env
    (Node.ItemWith results, env)
  | Node.Leaf tok, env => formatNode (Node.Leaf tok) env
  | Node.Synthetic m, env => formatNode (Node.Synthetic m) env
/-- The loop of `formatIdentiferList`: `for i, ident := range idents`, with
`len` the length of the whole slice, `i` the index of the head of the
remaining elements and `results` the slice built so far. -/
def formatIdentiferListLoop (len : Nat) :
    List Node → Nat → List Node → formatEnvironment → List Node × formatEnvironment
  | [], _, results, env => (results, env)
  | ident :: rest, i, results, env =>
    let (r, env) := Eval ident env
    let results := results ++ [r]
    let results :=
      if (i : Int) ≠ (len : Int) - 1 then
        (results ++ [commaNode, linebreakNode]) ++ env.genIndent
      else results
    formatIdentiferListLoop len rest (i + 1) results env
/-- The loop of `formatTokenList`: `for reader.NextNode(true)`, with `results`
the slice built so far.  Modelled from the spec: the `astutil.NodeReader`
cursor "walks children strictly left-to-right", every child becoming `CurNode`
once; the specification gives the argument of `NextNode` no further meaning. -/
def formatTokenListLoop :
    List Node → List Node → formatEnvironment → List Node × formatEnvironment
  | [], results, env => (results, env)
  | cur :: rest, results, env =>
    let (r, env) := Eval cur env
    formatTokenListLoop rest (results ++ [r]) env
end

/-- `formatAliased`. -/
def formatAliased (RealName AliasedName As : Node) (IsAs : Bool) (env : formatEnvironment) :
    Node × formatEnvironment :=
  if IsAs then
    let (r, env) := Eval RealName env
    let (a, env) := Eval AliasedName env
    (Node.ItemWith [r, whitespaceNode, As, whitespaceNode, a], env)
  else
    let (r, env) := Eval RealName env
    let (a, env) := Eval AliasedName env
    (Node.ItemWith [r, whitespaceNode, a], env)

/-- `formatMemberIdentifer`: only `node.Parent` and `node.Child` are read. -/
def formatMemberIdentifer (Parent Child : Node) (env : formatEnvironment) :
    Node × formatEnvironment :=
  let (p, env) := Eval Parent env
  let (c, env) := Eval Child env
  (Node.ItemWith [p, periodNode, c], env)

/-- `formatOperator`. -/
def formatOperator (Left Operator Right : Node) (env : formatEnvironment) :
    Node × formatEnvironment :=
  let (l, env) := Eval Left env
  let (r, env) := Eval Right env
  (Node.ItemWith [l, whitespaceNode, Operator, whitespaceNode, r], env)

/-- `formatComparison`. -/
def formatComparison (Left Comparison Right : Node) (env : formatEnvironment) :
    Node × formatEnvironment :=
  let (l, env) := Eval Left env
  let (r, env) := Eval Right env
  (Node.ItemWith [l, whitespaceNode, Comparison, whitespaceNode, r], env)

/-- `formatParenthesis`: only `node.Inner()` is read from the node. -/
def formatParenthesis (Inner : Node) (env : formatEnvironment) : Node × formatEnvironment :=
  let results : List Node := []
  let results := results ++ [lparenNode]
  let startIndentLevel := env.indentLevel
  let env := env.indentLevelUp
  let results := results ++ [linebreakNode]
  let results := results ++ env.genIndent
  let (inner, env) := Eval Inner env
  let results := results ++ [inner]
  let env : formatEnvironment := { env with indentLevel := startIndentLevel }
  let results := results ++ [linebreakNode]
  let results := results ++ env.genIndent
  let results := results ++ [rparenNode]
  (Node.ItemWith results, env)

/-- `formatIdentiferList`: only `GetIdentifers()` is read from the node. -/
def formatIdentiferList (idents : List Node) (env : formatEnvironment) :
    Node × formatEnvironment :=
  let (results, env) := formatIdentiferListLoop idents.length idents 0 [] env
  (Node.ItemWith results, env)

/-- `formatTokenList`: the node keeps its identity (`wrap` rebuilds the same
composite around the new children, as `SetTokens` does in place). -/
def formatTokenList (wrap : List Node → Node) (toks : List Node) (env : formatEnvironment) :
    Node × formatEnvironment :=
  let (results, env) := formatTokenListLoop toks [] env
  (wrap results, env)

/-! ## Rendering (`String()`) -/

/-- Modelled from the spec: the fixed text of a synthetic node: "single space,
newline, one indent unit's worth of spaces, `,`, `.`, `(`, `)`".  The text of
one indent unit is not fixed by the specification; it is the parameter
`unit`. -/
def Marker.text (unit : String) : Marker → String
  | Marker.whitespace => " "
  | Marker.linebreak => "\n"
  | Marker.indent => unit
  | Marker.comma => ","
  | Marker.period => "."
  | Marker.lparen => "("
  | Marker.rparen => ")"

mutual
/-- Modelled from the spec: `String()`, "the concatenation, in order, of every
leaf's literal text, where synthetic nodes render to their fixed text". -/
def render (unit : String) : Node → String
  | Node.Item tok => tok.Value
  | Node.MultiKeyword phrase => phrase
  | Node.Aliased RealName AliasedName As IsAs =>
    render unit RealName ++ (if IsAs then render unit As else "") ++ render unit AliasedName
  | Node.Identifer tok => tok.Value
  | Node.MemberIdentifer Parent period Child =>
    render unit Parent ++ period.Value ++ render unit Child
  | Node.Operator Left Operator Right =>
    render unit Left ++ render unit Operator ++ render unit Right
  | Node.Comparison Left Comparison Right =>
    render unit Left ++ render unit Comparison ++ render unit Right
  | Node.Parenthesis lparen Inner rparen => lparen.Value ++ render unit Inner ++ rparen.Value
  | Node.IdentiferList idents commas => renderSeparated unit idents commas
  | Node.TokenList _ toks => renderList unit toks
  | Node.ItemWith Toks => renderList unit Toks
  | Node.Leaf tok => tok.Value
  | Node.Synthetic m => m.text unit
/-- Concatenation of the renderings of a sequence of nodes. -/
def renderList (unit : String) : List Node → String
  | [] => ""
  | n :: ns => render unit n ++ renderList unit ns
/-- Concatenation of the renderings of a sequence of nodes with the separator
tokens of the source standing between them. -/
def renderSeparated (unit : String) : List Node → List SQLToken → String
  | [], seps => String.join (seps.map fun t => t.Value)
  | n :: ns, [] => render unit n ++ renderSeparated unit ns []
  | n :: ns, sep :: seps => render unit n ++ sep.Value ++ renderSeparated unit ns seps
end

/-! ## Leaves of a tree -/

mutual
/-- The texts of the original (non-synthetic) leaves of a tree, left to right.
The `As` node of an `Aliased` belongs to the tree only when `IsAs` is set. -/
def leafTexts : Node → List String
  | Node.Item tok => [tok.Value]
  | Node.MultiKeyword phrase => [phrase]
  | Node.Aliased RealName AliasedName As IsAs =>
    leafTexts RealName ++ (if IsAs then leafTexts As else []) ++ leafTexts AliasedName
  | Node.Identifer tok => [tok.Value]
  | Node.MemberIdentifer Parent period Child =>
    leafTexts Parent ++ [period.Value] ++ leafTexts Child
  | Node.Operator Left Operator Right =>
    leafTexts Left ++ leafTexts Operator ++ leafTexts Right
  | Node.Comparison Left Comparison Right =>
    leafTexts Left ++ leafTexts Comparison ++ leafTexts Right
  | Node.Parenthesis lparen Inner rparen => [lparen.Value] ++ leafTexts Inner ++ [rparen.Value]
  | Node.IdentiferList idents commas => leafTextsSeparated idents commas
  | Node.TokenList _ toks => leafTextsList toks
  | Node.ItemWith Toks => leafTextsList Toks
  | Node.Leaf tok => [tok.Value]
  | Node.Synthetic _ => []
/-- The original leaf texts of a sequence of nodes. -/
def leafTextsList : List Node → List String
  | [] => []
  | n :: ns => leafTexts n ++ leafTextsList ns
/-- The original leaf texts of a sequence of nodes with the separator tokens of
the source standing between them. -/
def leafTextsSeparated : List Node → List SQLToken → List String
  | [], seps => seps.map fun t => t.Value
  | n :: ns, [] => leafTexts n ++ leafTextsSeparated ns []
  | n :: ns, sep :: seps => leafTexts n ++ [sep.Value] ++ leafTextsSeparated ns seps
end

mutual
/-- The leaf texts of a tree without the punctuation tokens of the nodes the
dispatcher reaches: the opening and closing tokens of a `Parenthesis`, the
separator of a `MemberIdentifer`, the commas of an `IdentiferList`.  Nodes the
formatters splice in whole (`As`, the `Operator` and `Comparison` symbols)
count with all their leaves. -/
def keptTexts : Node → List String
  | Node.Item tok => [tok.Value]
  | Node.MultiKeyword phrase => [phrase]
  | Node.Aliased RealName AliasedName As IsAs =>
    keptTexts RealName ++ (if IsAs then leafTexts As else []) ++ keptTexts AliasedName
  | Node.Identifer tok => [tok.Value]
  | Node.MemberIdentifer Parent _ Child => keptTexts Parent ++ keptTexts Child
  | Node.Operator Left Operator Right =>
    keptTexts Left ++ leafTexts Operator ++ keptTexts Right
  | Node.Comparison Left Comparison Right =>
    keptTexts Left ++ leafTexts Comparison ++ keptTexts Right
  | Node.Parenthesis _ Inner _ => keptTexts Inner
  | Node.IdentiferList idents _ => keptTextsList idents
  | Node.TokenList _ toks => keptTextsList toks
  | Node.ItemWith Toks => keptTextsList Toks
  | Node.Leaf tok => [tok.Value]
  | Node.Synthetic _ => []
/-- The kept leaf texts of a sequence of nodes. -/
def keptTextsList : List Node → List String
  | [] => []
  | n :: ns => keptTexts n ++ keptTextsList ns
end

/-! ## The entry point `Format` (packages `lsp`, `parser`) -/

/-- Modelled from the spec: `token.Pos`, a (line, column) pair. -/
structure Pos where
  Line : Int
  Col : Int
  deriving DecidableEq, Repr

/-- Modelled from the spec: `lsp.Position`. -/
structure Position where
  Line : Int
  Character : Int
  deriving DecidableEq, Repr

/-- Modelled from the spec: `lsp.Range`, a half-open position range. -/
structure Range where
  Start : Position
  End : Position
  deriving DecidableEq, Repr

/-- Modelled from the spec: `lsp.TextEdit`, one edit descriptor. -/
structure TextEdit where
  Range : Range
  NewText : String
  deriving DecidableEq, Repr

/-- Modelled from the spec: `lsp.DocumentFormattingParams`, the
formatting-options bundle of the host layer. -/
structure DocumentFormattingParams where
  TextDocument : String
  TabSize : Nat
  InsertSpaces : Bool
  deriving DecidableEq, Repr

/-- `Format`.  The collaborators that are not part of the translated sources
are parameters: `Parse` is `parser.Parse`, `nodePos` and `nodeEnd` are the
`Pos()` and `End()` methods of a node, `unit` is the text of one indent unit.
Go's `(nil, err)` is `Except.error err` and `(res, nil)` is `Except.ok res`. -/
def Format {ε : Type} (Parse : String → Except ε Node) (nodePos nodeEnd : Node → Pos)
    (unit : String) (text : String) (_params : DocumentFormattingParams) :
    Except ε (List TextEdit) :=
  match Parse text with
  | Except.error err => Except.error err
  | Except.ok parsed =>
    let st : Position := { Line := (nodePos parsed).Line, Character := (nodePos parsed).Col }
    let en : Position := { Line := (nodeEnd parsed).Line, Character := (nodeEnd parsed).Col }
    let formatted := (Eval parsed { indentLevel := 0 }).1
    let res : List TextEdit :=
      [{ Range := { Start := st, End := en }, NewText := render unit formatted }]
    Except.ok res

/-! ## Variants and capabilities -/

/-- The node is one of the specialized variants `Eval` has a case for. -/
def isSpecialized : Node → Bool
  | Node.Item _ => true
  | Node.MultiKeyword _ => true
  | Node.Aliased _ _ _ _ => true
  | Node.Identifer _ => true
  | Node.MemberIdentifer _ _ _ => true
  | Node.Operator _ _ _ => true
  | Node.Comparison _ _ _ => true
  | Node.Parenthesis _ _ _ => true
  | Node.IdentiferList _ _ => true
  | _ => false

/-- Modelled from the spec: the ordered-children capability (`ast.TokenList`):
the composites have it, the leaves do not. -/
def isTokenList : Node → Bool
  | Node.Item _ => false
  | Node.MultiKeyword _ => false
  | Node.Identifer _ => false
  | Node.Leaf _ => false
  | Node.Synthetic _ => false
  | _ => true

/-! ## Recursion depth -/

/-- The loop of `formatIdentiferList` over an evaluator that may fail. -/
def formatIdentiferListLoopWith (ev : Node → formatEnvironment → Option (Node × formatEnvironment))
    (len : Nat) :
    List Node → Nat → List Node → formatEnvironment → Option (List Node × formatEnvironment)
  | [], _, results, env => some (results, env)
  | ident :: rest, i, results, env =>
    match ev ident env with
    | none => none
    | some (r, env) =>
      let results := results ++ [r]
      let results :=
        if (i : Int) ≠ (len : Int) - 1 then
          (results ++ [commaNode, linebreakNode]) ++ env.genIndent
        else results
      formatIdentiferListLoopWith ev len rest (i + 1) results env

/-- The loop of `formatTokenList` over an evaluator that may fail. -/
def formatTokenListLoopWith (ev : Node → formatEnvironment → Option (Node × formatEnvironment)) :
    List Node → List Node → formatEnvironment → Option (List Node × formatEnvironment)
  | [], results, env => some (results, env)
  | cur :: rest, results, env =>
    match ev cur env with
    | none => none
    | some (r, env) => formatTokenListLoopWith ev rest (results ++ [r]) env

/-- `Eval` with a bound on the depth of nested calls: every call of `Eval`
takes one unit of `fuel`, and the calls it makes in turn get what is left.
`none` is returned only when the bound is used up; the dispatch itself has no
failing case. -/
def EvalFuel : Nat → Node → formatEnvironment → Option (Node × formatEnvironment)
  | 0, _, _ => none
  | _ + 1, Node.Item tok, env => some (formatItem (Node.Item tok) env)
  | _ + 1, Node.MultiKeyword phrase, env => some (formatMultiKeyword (Node.MultiKeyword phrase) env)
  | fuel + 1, Node.Aliased RealName AliasedName As IsAs, env =>
    match EvalFuel fuel RealName env with
    | none => none
    | some (r, env) =>
      match EvalFuel fuel AliasedName env with
      | none => none
      | some (a, env) =>
        if IsAs then some (Node.ItemWith [r, whitespaceNode, As, whitespaceNode, a], env)
        else some (Node.ItemWith [r, whitespaceNode, a], env)
  | _ + 1, Node.Identifer tok, env => some (formatIdentifer (Node.Identifer tok) env)
  | fuel + 1, Node.MemberIdentifer Parent _ Child, env =>
    match EvalFuel fuel Parent env with
    | none => none
    | some (p, env) =>
      match EvalFuel fuel Child env with
      | none => none
      | some (c, env) => some (Node.ItemWith [p, periodNode, c], env)
  | fuel + 1, Node.Operator Left Operator Right, env =>
    match EvalFuel fuel Left env with
    | none => none
    | some (l, env) =>
      match EvalFuel fuel Right env with
      | none => none
      | some (r, env) => some (Node.ItemWith [l, whitespaceNode, Operator, whitespaceNode, r], env)
  | fuel + 1, Node.Comparison Left Comparison Right, env =>
    match EvalFuel fuel Left env with
    | none => none
    | some (l, env) =>
      match EvalFuel fuel Right env with
      | none => none
      | some (r, env) =>
        some (Node.ItemWith [l, whitespaceNode, Comparison, whitespaceNode, r], env)
  | fuel + 1, Node.Parenthesis _ Inner _, env =>
    let startIndentLevel := env.indentLevel
    let env := env.indentLevelUp
    let results := [lparenNode] ++ [linebreakNode] ++ env.genIndent
    match EvalFuel fuel Inner env with
    | none => none
    | some (inner, env) =>
      let results := results ++ [inner]
      let env : formatEnvironment := { env with indentLevel := startIndentLevel }
      let results := results ++ [linebreakNode]
      let results := results ++ env.genIndent
      let results := results ++ [rparenNode]
      some (Node.ItemWith results, env)
  | fuel + 1, Node.IdentiferList idents _, env =>
    match formatIdentiferListLoopWith (EvalFuel fuel) idents.length idents 0 [] env with
    | none => none
    | some (results, env) => some (Node.ItemWith results, env)
  | fuel + 1, Node.TokenList tag toks, env =>
    match formatTokenListLoopWith (EvalFuel fuel) toks [] env with
    | none => none
    | some (results, env) => some (Node.TokenList tag results, env)
  | fuel + 1, Node.ItemWith Toks, env =>
    match formatTokenListLoopWith (EvalFuel fuel) Toks [] env with
    | none => none
    | some (results, env) => some (Node.ItemWith results, env)
  | _ + 1, Node.Leaf tok, env => some (formatNode (Node.Leaf tok) env)
  | _ + 1, Node.Synthetic m, env => some (formatNode (Node.Synthetic m) env)

mutual
/-- The nesting depth of a tree along the sub-trees `Eval` recurses into: the
operands of `Aliased`, `MemberIdentifer`, `Operator` and `Comparison`, the
inner content of a `Parenthesis`, the elements of an `IdentiferList`, the
children of a generic composite.  A node without such sub-trees has depth 1. -/
def depth : Node → Nat
  | Node.Item _ => 1
  | Node.MultiKeyword _ => 1
  | Node.Aliased RealName AliasedName _ _ => max (depth RealName) (depth AliasedName) + 1
  | Node.Identifer _ => 1
  | Node.MemberIdentifer Parent _ Child => max (depth Parent) (depth Child) + 1
  | Node.Operator Left _ Right => max (depth Left) (depth Right) + 1
  | Node.Comparison Left _ Right => max (depth Left) (depth Right) + 1
  | Node.Parenthesis _ Inner _ => depth Inner + 1
  | Node.IdentiferList idents _ => depthList idents + 1
  | Node.TokenList _ toks => depthList toks + 1
  | Node.ItemWith Toks => depthList Toks + 1
  | Node.Leaf _ => 1
  | Node.Synthetic _ => 1
/-- The largest depth among a sequence of nodes. -/
def depthList : List Node → Nat
  | [] => 0
  | n :: ns => max (depth n) (depthList ns)
end

/-! ## The scenario tree -/

/-- The parsed tree of `SELECT a, b FROM t WHERE a = 1 AND b = 2`: a token list
whose children are the SELECT keyword item, the identifier list `[a, b]`, the
FROM keyword item, the identifier `t`, the WHERE keyword item, the comparison
`a = 1`, the AND keyword item and the comparison `b = 2`. -/
def selectQuery : Node :=
  Node.TokenList 0
    [Node.Item ⟨Kind.SQLKeyword, "SELECT"⟩,
     Node.IdentiferList [Node.Identifer ⟨Kind.Ident, "a"⟩, Node.Identifer ⟨Kind.Ident, "b"⟩]
       [⟨Kind.Comma, ","⟩],
     Node.Item ⟨Kind.SQLKeyword, "FROM"⟩,
     Node.Identifer ⟨Kind.Ident, "t"⟩,
     Node.Item ⟨Kind.SQLKeyword, "WHERE"⟩,
     Node.Comparison (Node.Identifer ⟨Kind.Ident, "a"⟩) (Node.Item ⟨Kind.Eq, "="⟩)
       (Node.Item ⟨Kind.Number, "1"⟩),
     Node.Item ⟨Kind.SQLKeyword, "AND"⟩,
     Node.Comparison (Node.Identifer ⟨Kind.Ident, "b"⟩) (Node.Item ⟨Kind.Eq, "="⟩)
       (Node.Item ⟨Kind.Number, "2"⟩)]

/-! ## Reference readings of the two list formatters -/

/-- The reading of the IdentifierList formatter in the specification's words,
to be compared with `formatIdentiferList`: each element laid out by `Eval`, in
order and in one environment, joined by the separator "comma, line break,
indent markers of the level current at that point", with no separator after
the last element. -/
def joinIdentifers : List Node → formatEnvironment → List Node × formatEnvironment
  | [], env => ([], env)
  | [e], env => ([(Eval e env).1], (Eval e env).2)
  | e :: e2 :: rest, env =>
    let r := Eval e env
    let tl := joinIdentifers (e2 :: rest) r.2
    (r.1 :: commaNode :: linebreakNode :: (r.2.genIndent ++ tl.1), tl.2)

/-- The reading of the generic composite rewriter in the specification's
words, to be compared with `formatTokenList`: a left-to-right fold of `Eval`
over the children through one environment, one result per child. -/
def evalChildren : List Node → formatEnvironment → List Node × formatEnvironment
  | [], env => ([], env)
  | c :: cs, env =>
    let r := Eval c env
    let tl := evalChildren cs r.2
    (r.1 :: tl.1, tl.2)

/-- The node is a synthetic layout node. -/
def isSynthetic : Node → Bool
  | Node.Synthetic _ => true
  | _ => false

/-- The number of comma markers among a sequence of fragments. -/
def countComma : List Node → Nat
  | [] => 0
  | Node.Synthetic Marker.comma :: ns => countComma ns + 1
  | _ :: ns => countComma ns

/-! ## Basic facts -/

theorem genIndentLoop_eq (level : Int) (n : Nat) :
    ∀ (i : Int) (nodes : List Node), (level - i).toNat = n →
      genIndentLoop level i nodes = nodes ++ List.replicate n indentNode := by
  induction n with
  | zero =>
    intro i nodes h
    rw [genIndentLoop]
    have hi : ¬ i < level := by omega
    simp [hi]
  | succ n ih =>
    intro i nodes h
    rw [genIndentLoop]
    have hi : i < level := by omega
    rw [if_pos hi, ih (i + 1) (nodes ++ [indentNode]) (by omega)]
    simp [List.replicate_succ]

theorem genIndent_eq (e : formatEnvironment) :
    e.genIndent = List.replicate e.indentLevel.toNat indentNode := by
  unfold formatEnvironment.genIndent
  rw [genIndentLoop_eq e.indentLevel e.indentLevel.toNat 0 [] (by simp)]
  simp

theorem Eval_Aliased (RealName AliasedName As : Node) (IsAs : Bool) (env : formatEnvironment) :
    Eval (Node.Aliased RealName AliasedName As IsAs) env =
      formatAliased RealName AliasedName As IsAs env := by
  cases IsAs <;> rfl

theorem Eval_MemberIdentifer (Parent Child : Node) (period : SQLToken)
    (env : formatEnvironment) :
    Eval (Node.MemberIdentifer Parent period Child) env =
      formatMemberIdentifer Parent Child env := rfl

theorem Eval_Operator (Left Operator Right : Node) (env : formatEnvironment) :
    Eval (Node.Operator Left Operator Right) env = formatOperator Left Operator Right env := rfl

theorem Eval_Comparison (Left Comparison Right : Node) (env : formatEnvironment) :
    Eval (Node.Comparison Left Comparison Right) env =
      formatComparison Left Comparison Right env := rfl

theorem Eval_Parenthesis (lparen rparen : SQLToken) (Inner : Node) (env : formatEnvironment) :
    Eval (Node.Parenthesis lparen Inner rparen) env = formatParenthesis Inner env := rfl

theorem Eval_IdentiferList (idents : List Node) (commas : List SQLToken)
    (env : formatEnvironment) :
    Eval (Node.IdentiferList idents commas) env = formatIdentiferList idents env := rfl

theorem Eval_TokenList (tag : Nat) (toks : List Node) (env : formatEnvironment) :
    Eval (Node.TokenList tag toks) env = formatTokenList (Node.TokenList tag) toks env := rfl

theorem Eval_ItemWith (Toks : List Node) (env : formatEnvironment) :
    Eval (Node.ItemWith Toks) env = formatTokenList Node.ItemWith Toks env := rfl

/-! ## C1: the parenthesis formatter restores the indent level -/

/-- C1: for every Parenthesis node, whatever its inner content, and every
environment, the indent level after `formatParenthesis` (reached from `Eval`
on the Parenthesis node) is the level on entry. -/
theorem formatParenthesis_restores_indentLevel (lparen rparen : SQLToken) (Inner : Node)
    (n : Int) :
    (formatParenthesis Inner { indentLevel := n }).2.indentLevel = n ∧
      (Eval (Node.Parenthesis lparen Inner rparen) { indentLevel := n }).2.indentLevel = n :=
  ⟨rfl, rfl⟩

/-! ## C2: token preservation -/

theorem leafTextsList_append (a b : List Node) :
    leafTextsList (a ++ b) = leafTextsList a ++ leafTextsList b := by
  induction a with
  | nil => simp [leafTextsList]
  | cons x xs ih => simp [leafTextsList, ih]

theorem leafTextsList_replicate_indent (n : Nat) :
    leafTextsList (List.replicate n indentNode) = [] := by
  induction n with
  | zero => simp [leafTextsList]
  | succ n ih => rw [List.replicate_succ, leafTextsList, ih]; simp [indentNode, leafTexts]

theorem leafTextsList_genIndent (e : formatEnvironment) : leafTextsList e.genIndent = [] := by
  rw [genIndent_eq, leafTextsList_replicate_indent]

theorem leafTexts_formatItem (node : Node) (env : formatEnvironment) :
    leafTexts (formatItem node env).1 = leafTexts node := by
  cases h1 : NodeMatcher.IsMatch { ExpectKeyword := ["JOIN", "ON", "AND", "OR", "LIMIT"] } node <;>
  cases h2 : NodeMatcher.IsMatch { ExpectKeyword := ["BETWEEN", "USING"] } node <;>
  cases h3 : NodeMatcher.IsMatch { ExpectKeyword :=
        ["FROM", "JOIN", "WHERE", "HAVING", "LIMIT", "UNION", "VALUES", "SET", "EXCEPT"] } node <;>
  cases h4 : NodeMatcher.IsMatch { ExpectKeyword := ["ON"] } node <;>
  cases h5 : NodeMatcher.IsMatch { ExpectKeyword := ["AND", "OR"] } node <;>
  cases h6 : NodeMatcher.IsMatch
    { ExpectKeyword := ["SELECT", "FROM", "WHERE"], ExpectTokens := [Kind.LParen] } node <;>
  cases h7 : NodeMatcher.IsMatch { ExpectTokens := [Kind.Comma] } node <;>
    simp [formatItem, h1, h2, h3, h4, h5, h6, h7, unshift, leafTexts, leafTextsList,
      leafTextsList_append, leafTextsList_genIndent, whitespaceNode, linebreakNode]

theorem leafTexts_formatMultiKeyword (node : Node) (env : formatEnvironment) :
    leafTexts (formatMultiKeyword node env).1 = leafTexts node := by
  cases h1 : NodeMatcher.IsMatch { ExpectKeyword := joinKeywords } node <;>
    simp [formatMultiKeyword, h1, unshift, leafTexts, leafTextsList,
      leafTextsList_append, leafTextsList_genIndent, whitespaceNode, linebreakNode]

mutual
theorem leafTexts_Eval :
    ∀ (t : Node) (env : formatEnvironment), leafTexts (Eval t env).1 = keptTexts t
  | Node.Item tok, env => by
    simp only [Eval]; rw [leafTexts_formatItem]; simp [leafTexts, keptTexts]
  | Node.MultiKeyword phrase, env => by
    simp only [Eval]; rw [leafTexts_formatMultiKeyword]; simp [leafTexts, keptTexts]
  | Node.Aliased RealName AliasedName As IsAs, env => by
    have h1 := leafTexts_Eval RealName env
    have h2 := leafTexts_Eval AliasedName (Eval RealName env).2
    cases IsAs <;>
      simp [Eval, leafTexts, leafTextsList, keptTexts, h1, h2, whitespaceNode]
  | Node.Identifer tok, env => by
    simp [Eval, formatIdentifer, leafTexts, leafTextsList, keptTexts]
  | Node.MemberIdentifer Parent period Child, env => by
    have h1 := leafTexts_Eval Parent env
    have h2 := leafTexts_Eval Child (Eval Parent env).2
    simp [Eval, leafTexts, leafTextsList, keptTexts, h1, h2, periodNode]
  | Node.Operator Left Operator Right, env => by
    have h1 := leafTexts_Eval Left env
    have h2 := leafTexts_Eval Right (Eval Left env).2
    simp [Eval, leafTexts, leafTextsList, keptTexts, h1, h2, whitespaceNode]
  | Node.Comparison Left Comparison Right, env => by
    have h1 := leafTexts_Eval Left env
    have h2 := leafTexts_Eval Right (Eval Left env).2
    simp [Eval, leafTexts, leafTextsList, keptTexts, h1, h2, whitespaceNode]
  | Node.Parenthesis lparen Inner rparen, env => by
    have h1 := leafTexts_Eval Inner env.indentLevelUp
    simp [Eval, leafTexts, leafTextsList, leafTextsList_append, leafTextsList_genIndent,
      keptTexts, h1, lparenNode, rparenNode, linebreakNode]
  | Node.IdentiferList idents commas, env => by
    have h1 := leafTextsList_identLoop idents idents.length 0 [] env
    simp [Eval, leafTexts, leafTextsList, keptTexts, h1]
  | Node.TokenList tag toks, env => by
    have h1 := leafTextsList_tokenLoop toks [] env
    simp [Eval, leafTexts, leafTextsList, keptTexts, h1]
  | Node.ItemWith Toks, env => by
    have h1 := leafTextsList_tokenLoop Toks [] env
    simp [Eval, leafTexts, leafTextsList, keptTexts, h1]
  | Node.Leaf tok, env => by simp [Eval, formatNode, leafTexts, keptTexts]
  | Node.Synthetic m, env => by simp [Eval, formatNode, leafTexts, keptTexts]
theorem leafTextsList_identLoop :
    ∀ (ts : List Node) (len i : Nat) (acc : List Node) (env : formatEnvironment),
      leafTextsList (formatIdentiferListLoop len ts i acc env).1 =
        leafTextsList acc ++ keptTextsList ts
  | [], len, i, acc, env => by simp [formatIdentiferListLoop, keptTextsList]
  | t :: ts, len, i, acc, env => by
    have h1 := leafTexts_Eval t env
    simp only [formatIdentiferListLoop]
    rw [leafTextsList_identLoop ts]
    split_ifs <;>
      simp [leafTextsList_append, leafTextsList, leafTextsList_genIndent, keptTextsList, h1,
        commaNode, linebreakNode, leafTexts]
theorem leafTextsList_tokenLoop :
    ∀ (ts : List Node) (acc : List Node) (env : formatEnvironment),
      leafTextsList (formatTokenListLoop ts acc env).1 = leafTextsList acc ++ keptTextsList ts
  | [], acc, env => by simp [formatTokenListLoop, keptTextsList]
  | t :: ts, acc, env => by
    have h1 := leafTexts_Eval t env
    simp only [formatTokenListLoop]
    rw [leafTextsList_tokenLoop ts]
    simp [leafTextsList_append, leafTextsList, keptTextsList, h1]
end

/-- C2 (as stated, refuted): the punctuation tokens of the source are not
carried over.  For the Parenthesis `( a )` the original leaves of the input
are `(`, `a`, `)` and the only original leaf of the result of `Eval` is `a`;
for the member identifier `a.id` they are `a`, `.`, `id` against `a`, `id`;
for the identifier list `a, b` they are `a`, `,`, `b` against `a`, `b`. -/
theorem leafTexts_Eval_punctuation_ne :
    (leafTexts (Node.Parenthesis ⟨Kind.LParen, "("⟩
          (Node.TokenList 0 [Node.Identifer ⟨Kind.Ident, "a"⟩]) ⟨Kind.RParen, ")"⟩) =
        ["(", "a", ")"] ∧
      leafTexts (Eval (Node.Parenthesis ⟨Kind.LParen, "("⟩
          (Node.TokenList 0 [Node.Identifer ⟨Kind.Ident, "a"⟩]) ⟨Kind.RParen, ")"⟩)
          { indentLevel := 0 }).1 = ["a"]) ∧
    (leafTexts (Node.MemberIdentifer (Node.Identifer ⟨Kind.Ident, "a"⟩) ⟨Kind.Period, "."⟩
          (Node.Identifer ⟨Kind.Ident, "id"⟩)) = ["a", ".", "id"] ∧
      leafTexts (Eval (Node.MemberIdentifer (Node.Identifer ⟨Kind.Ident, "a"⟩)
          ⟨Kind.Period, "."⟩ (Node.Identifer ⟨Kind.Ident, "id"⟩))
          { indentLevel := 0 }).1 = ["a", "id"]) ∧
    (leafTexts (Node.IdentiferList
          [Node.Identifer ⟨Kind.Ident, "a"⟩, Node.Identifer ⟨Kind.Ident, "b"⟩]
          [⟨Kind.Comma, ","⟩]) = ["a", ",", "b"] ∧
      leafTexts (Eval (Node.IdentiferList
          [Node.Identifer ⟨Kind.Ident, "a"⟩, Node.Identifer ⟨Kind.Ident, "b"⟩]
          [⟨Kind.Comma, ","⟩]) { indentLevel := 0 }).1 = ["a", "b"]) ∧
    leafTexts (Eval (Node.Parenthesis ⟨Kind.LParen, "("⟩
        (Node.TokenList 0 [Node.Identifer ⟨Kind.Ident, "a"⟩]) ⟨Kind.RParen, ")"⟩)
        { indentLevel := 0 }).1 ≠
      leafTexts (Node.Parenthesis ⟨Kind.LParen, "("⟩
        (Node.TokenList 0 [Node.Identifer ⟨Kind.Ident, "a"⟩]) ⟨Kind.RParen, ")"⟩) := by
  simp [Eval, formatTokenListLoop, formatIdentiferListLoop, formatIdentifer, leafTexts,
    leafTextsList, leafTextsSeparated, leafTextsList_append, leafTextsList_genIndent,
    lparenNode, rparenNode, linebreakNode, commaNode, periodNode]

mutual
theorem keptTexts_sublist : ∀ (t : Node), (keptTexts t).Sublist (leafTexts t)
  | Node.Item tok => by simp [keptTexts, leafTexts]
  | Node.MultiKeyword phrase => by simp [keptTexts, leafTexts]
  | Node.Aliased RealName AliasedName As IsAs => by
    simp only [keptTexts, leafTexts]
    exact ((keptTexts_sublist RealName).append (List.Sublist.refl _)).append
      (keptTexts_sublist AliasedName)
  | Node.Identifer tok => by simp [keptTexts, leafTexts]
  | Node.MemberIdentifer Parent period Child => by
    simp only [keptTexts, leafTexts]
    have h := ((keptTexts_sublist Parent).append (List.nil_sublist [period.Value])).append
      (keptTexts_sublist Child)
    simpa using h
  | Node.Operator Left Operator Right => by
    simp only [keptTexts, leafTexts]
    exact ((keptTexts_sublist Left).append (List.Sublist.refl _)).append
      (keptTexts_sublist Right)
  | Node.Comparison Left Comparison Right => by
    simp only [keptTexts, leafTexts]
    exact ((keptTexts_sublist Left).append (List.Sublist.refl _)).append
      (keptTexts_sublist Right)
  | Node.Parenthesis lparen Inner rparen => by
    simp only [keptTexts, leafTexts]
    have h := ((List.nil_sublist [lparen.Value]).append (keptTexts_sublist Inner)).append
      (List.nil_sublist [rparen.Value])
    simpa using h
  | Node.IdentiferList idents commas => by
    simp only [keptTexts, leafTexts]
    exact keptTextsList_sublist_separated idents commas
  | Node.TokenList tag toks => by
    simp only [keptTexts, leafTexts]
    exact keptTextsList_sublist toks
  | Node.ItemWith Toks => by
    simp only [keptTexts, leafTexts]
    exact keptTextsList_sublist Toks
  | Node.Leaf tok => by simp [keptTexts, leafTexts]
  | Node.Synthetic m => by simp [keptTexts, leafTexts]
theorem keptTextsList_sublist : ∀ (ts : List Node), (keptTextsList ts).Sublist (leafTextsList ts)
  | [] => by simp [keptTextsList, leafTextsList]
  | t :: ts => by
    simp only [keptTextsList, leafTextsList]
    exact (keptTexts_sublist t).append (keptTextsList_sublist ts)
theorem keptTextsList_sublist_separated :
    ∀ (ts : List Node) (seps : List SQLToken),
      (keptTextsList ts).Sublist (leafTextsSeparated ts seps)
  | [], seps => by simp [keptTextsList]
  | t :: ts, [] => by
    simp only [keptTextsList, leafTextsSeparated]
    exact (keptTexts_sublist t).append (keptTextsList_sublist_separated ts [])
  | t :: ts, sep :: seps => by
    simp only [keptTextsList, leafTextsSeparated]
    have h := ((keptTexts_sublist t).append (List.nil_sublist [sep.Value])).append
      (keptTextsList_sublist_separated ts seps)
    simpa using h
end

/-- C2 (amended): for every input tree and every environment, the texts of the
original (non-synthetic) leaves of `Eval tree`, left to right, are the leaf
texts of the input tree without the punctuation tokens of the nodes `Eval`
lays out: the opening and closing tokens of a Parenthesis, the separator of a
MemberIdentifier and the commas of an IdentifierList, which the formatters
emit anew as synthetic markers.  Every other original token is kept once and
in order; what is kept is a subsequence of the input's leaf texts, so nothing
is duplicated or reordered. -/
theorem Eval_keeps_tokens (t : Node) (env : formatEnvironment) :
    leafTexts (Eval t env).1 = keptTexts t ∧
      (leafTexts (Eval t env).1).Sublist (leafTexts t) := by
  have h := leafTexts_Eval t env
  exact ⟨h, h ▸ keptTexts_sublist t⟩

/-! ## C3: the SELECT scenario -/

theorem render_selectQuery (unit : String) :
    render unit (Eval selectQuery { indentLevel := 0 }).1 =
      "SELECT\n" ++ unit ++ "a,\n" ++ unit ++ "b\nFROM\n" ++ unit ++ "t\nWHERE\n" ++
        unit ++ "a = 1\n" ++ unit ++ "AND b = 2" := by
  apply String.ext
  simp [selectQuery, Eval, formatTokenListLoop, formatIdentiferListLoop, formatItem,
    formatIdentifer, genIndent_eq, NodeMatcher.IsMatch, keywordText, tokenKind, unshift,
    formatEnvironment.indentLevelUp, formatEnvironment.indentLevelDown, render, renderList,
    whitespaceNode, linebreakNode, indentNode, commaNode, Marker.text, String.data_append]

/-- C3 (as stated, refuted): whatever the text of one indent unit, the
rendering of `Eval` on the scenario tree from indent level 0 is not the five
lines `SELECT a,` / `b` / `FROM t` / `WHERE a = 1` / `AND b = 2`. -/
theorem render_selectQuery_ne_five_lines :
    ¬ ∃ unit : String,
      render unit (Eval selectQuery { indentLevel := 0 }).1 =
        "SELECT a,\nb\nFROM t\nWHERE a = 1\nAND b = 2" := by
  rintro ⟨unit, h⟩
  rw [render_selectQuery] at h
  have h2 := congrArg String.data h
  simp [String.data_append] at h2

/-- C3 (amended): the rendering of `Eval` on the scenario tree from indent
level 0 is the eight lines `SELECT` / `a,` / `b` / `FROM` / `t` / `WHERE` /
`a = 1` / `AND b = 2`, the keyword lines at base indent and every other line
behind one indent unit: a clause keyword starts a new line and is followed by
a line break, AND starts a new line at the indent of the WHERE body, and the
identifier list breaks after its comma.  The level at the end is 1. -/
theorem render_selectQuery_eight_lines (unit : String) :
    render unit (Eval selectQuery { indentLevel := 0 }).1 =
      "SELECT\n" ++
      unit ++ "a,\n" ++
      unit ++ "b\n" ++
      "FROM\n" ++
      unit ++ "t\n" ++
      "WHERE\n" ++
      unit ++ "a = 1\n" ++
      unit ++ "AND b = 2" ∧
    (Eval selectQuery { indentLevel := 0 }).2.indentLevel = 1 := by
  refine ⟨?_, by decide⟩
  rw [render_selectQuery]
  apply String.ext
  simp [String.data_append]

/-! ## C4: rendered indentation is clamped at zero -/

/-- C4: for every integer level `k`, negative ones included, `genIndent`
returns `max 0 k` nodes, each the indent-unit marker; a level that is not
positive gives no indentation at all. -/
theorem genIndent_clamped (k : Int) :
    formatEnvironment.genIndent { indentLevel := k } =
        List.replicate (max 0 k).toNat indentNode ∧
      ((formatEnvironment.genIndent { indentLevel := k }).length : Int) = max 0 k ∧
      formatEnvironment.genIndent { indentLevel := min k 0 } = [] := by
  refine ⟨?_, ?_, ?_⟩
  · rw [genIndent_eq]
    congr 1
    simp only []
    omega
  · rw [genIndent_eq, List.length_replicate]
    simp only []
    omega
  · rw [genIndent_eq]
    have h : (min k 0).toNat = 0 := by omega
    simp only [h, List.replicate_zero]

/-! ## C5: `Format` -/

/-- C5: with the parser as a parameter, `Format` fails exactly when parsing
fails, and then with the parser's own error and no edits; when parsing gives
the root `r` it returns exactly one edit, from `(r.Pos line, r.Pos column)` to
`(r.End line, r.End column)`, whose text is the rendering of `Eval r` from a
fresh environment (level 0); the request parameters play no role. -/
theorem Format_one_edit_or_parse_error {ε : Type} (Parse : String → Except ε Node)
    (nodePos nodeEnd : Node → Pos) (unit text : String) (params : DocumentFormattingParams) :
    ((∃ e, Format Parse nodePos nodeEnd unit text params = Except.error e) ↔
        ∃ e, Parse text = Except.error e) ∧
      (∀ e, Parse text = Except.error e →
        Format Parse nodePos nodeEnd unit text params = Except.error e) ∧
      (∀ r, Parse text = Except.ok r →
        Format Parse nodePos nodeEnd unit text params =
          Except.ok
            [{ Range :=
                { Start := { Line := (nodePos r).Line, Character := (nodePos r).Col },
                  End := { Line := (nodeEnd r).Line, Character := (nodeEnd r).Col } },
               NewText := render unit (Eval r { indentLevel := 0 }).1 }]) ∧
      (∀ params2, Format Parse nodePos nodeEnd unit text params2 =
        Format Parse nodePos nodeEnd unit text params) := by
  refine ⟨?_, ?_, ?_, ?_⟩
  · unfold Format
    cases h : Parse text with
    | error err => simp
    | ok parsed => simp
  · intro e h
    simp [Format, h]
  · intro r h
    simp [Format, h]
  · intro params2
    rfl

/-- C5 at a concrete parser: one that rejects the empty text and parses any
other text to a bare leaf spanning line 0 from column 0 to column 3. -/
theorem Format_one_edit_or_parse_error_witness :
    Format (fun s => if s = "" then Except.error "empty" else Except.ok (Node.Leaf ⟨Kind.Other, s⟩))
        (fun _ => ⟨0, 0⟩) (fun _ => ⟨0, 3⟩) "  " "abc" ⟨"file:///q.sql", 4, true⟩ =
      Except.ok [{ Range := { Start := ⟨0, 0⟩, End := ⟨0, 3⟩ }, NewText := "abc" }] ∧
    Format (fun s => if s = "" then Except.error "empty" else Except.ok (Node.Leaf ⟨Kind.Other, s⟩))
        (fun _ => ⟨0, 0⟩) (fun _ => ⟨0, 3⟩) "  " "" ⟨"file:///q.sql", 4, true⟩ =
      Except.error "empty" :=
  ⟨(Format_one_edit_or_parse_error
      (fun s => if s = "" then Except.error "empty" else Except.ok (Node.Leaf ⟨Kind.Other, s⟩))
      (fun _ => ⟨0, 0⟩) (fun _ => ⟨0, 3⟩) "  " "abc" ⟨"file:///q.sql", 4, true⟩).2.2.1
      (Node.Leaf ⟨Kind.Other, "abc"⟩) (by simp),
   (Format_one_edit_or_parse_error
      (fun s => if s = "" then Except.error "empty" else Except.ok (Node.Leaf ⟨Kind.Other, s⟩))
      (fun _ => ⟨0, 0⟩) (fun _ => ⟨0, 3⟩) "  " "" ⟨"file:///q.sql", 4, true⟩).2.1
      "empty" (by simp)⟩

/-! ## C6: the identity fallback -/

/-- C6: a node that is none of the specialized variants and has no ordered
children is returned by `Eval` as it is, and the environment is unchanged. -/
theorem Eval_fallback_identity (node : Node) (env : formatEnvironment)
    (hs : isSpecialized node = false) (hl : isTokenList node = false) :
    Eval node env = (node, env) := by
  cases node <;> simp_all [isSpecialized, isTokenList, Eval, formatNode]

/-- C6 at a bare leaf, at level 3. -/
theorem Eval_fallback_identity_witness :
    Eval (Node.Leaf ⟨Kind.Other, "NULL"⟩) { indentLevel := 3 } =
      (Node.Leaf ⟨Kind.Other, "NULL"⟩, { indentLevel := 3 }) :=
  Eval_fallback_identity (Node.Leaf ⟨Kind.Other, "NULL"⟩) { indentLevel := 3 } rfl rfl

/-! ## C7: totality -/

mutual
theorem EvalFuel_of_depth_le :
    ∀ (t : Node) (fuel : Nat) (env : formatEnvironment), depth t ≤ fuel →
      EvalFuel fuel t env = some (Eval t env)
  | Node.Item tok, fuel, env, h => by
    cases fuel with
    | zero => simp [depth] at h
    | succ f => simp [EvalFuel, Eval]
  | Node.MultiKeyword phrase, fuel, env, h => by
    cases fuel with
    | zero => simp [depth] at h
    | succ f => simp [EvalFuel, Eval]
  | Node.Aliased RealName AliasedName As IsAs, fuel, env, h => by
    cases fuel with
    | zero => simp [depth] at h
    | succ f =>
      simp only [depth, Nat.add_le_add_iff_right, max_le_iff] at h
      have h1 := EvalFuel_of_depth_le RealName f env h.1
      have h2 := EvalFuel_of_depth_le AliasedName f (Eval RealName env).2 h.2
      cases IsAs <;> simp [EvalFuel, Eval, h1, h2]
  | Node.Identifer tok, fuel, env, h => by
    cases fuel with
    | zero => simp [depth] at h
    | succ f => simp [EvalFuel, Eval]
  | Node.MemberIdentifer Parent period Child, fuel, env, h => by
    cases fuel with
    | zero => simp [depth] at h
    | succ f =>
      simp only [depth, Nat.add_le_add_iff_right, max_le_iff] at h
      have h1 := EvalFuel_of_depth_le Parent f env h.1
      have h2 := EvalFuel_of_depth_le Child f (Eval Parent env).2 h.2
      simp [EvalFuel, Eval, h1, h2]
  | Node.Operator Left Operator Right, fuel, env, h => by
    cases fuel with
    | zero => simp [depth] at h
    | succ f =>
      simp only [depth, Nat.add_le_add_iff_right, max_le_iff] at h
      have h1 := EvalFuel_of_depth_le Left f env h.1
      have h2 := EvalFuel_of_depth_le Right f (Eval Left env).2 h.2
      simp [EvalFuel, Eval, h1, h2]
  | Node.Comparison Left Comparison Right, fuel, env, h => by
    cases fuel with
    | zero => simp [depth] at h
    | succ f =>
      simp only [depth, Nat.add_le_add_iff_right, max_le_iff] at h
      have h1 := EvalFuel_of_depth_le Left f env h.1
      have h2 := EvalFuel_of_depth_le Right f (Eval Left env).2 h.2
      simp [EvalFuel, Eval, h1, h2]
  | Node.Parenthesis lparen Inner rparen, fuel, env, h => by
    cases fuel with
    | zero => simp [depth] at h
    | succ f =>
      simp only [depth, Nat.add_le_add_iff_right] at h
      have h1 := EvalFuel_of_depth_le Inner f env.indentLevelUp h
      simp [EvalFuel, Eval, h1]
  | Node.IdentiferList idents commas, fuel, env, h => by
    cases fuel with
    | zero => simp [depth] at h
    | succ f =>
      simp only [depth, Nat.add_le_add_iff_right] at h
      have h1 := identLoopWith_of_depth_le idents f idents.length 0 [] env h
      simp [EvalFuel, Eval, h1]
  | Node.TokenList tag toks, fuel, env, h => by
    cases fuel with
    | zero => simp [depth] at h
    | succ f =>
      simp only [depth, Nat.add_le_add_iff_right] at h
      have h1 := tokenLoopWith_of_depth_le toks f [] env h
      simp [EvalFuel, Eval, h1]
  | Node.ItemWith Toks, fuel, env, h => by
    cases fuel with
    | zero => simp [depth] at h
    | succ f =>
      simp only [depth, Nat.add_le_add_iff_right] at h
      have h1 := tokenLoopWith_of_depth_le Toks f [] env h
      simp [EvalFuel, Eval, h1]
  | Node.Leaf tok, fuel, env, h => by
    cases fuel with
    | zero => simp [depth] at h
    | succ f => simp [EvalFuel, Eval]
  | Node.Synthetic m, fuel, env, h => by
    cases fuel with
    | zero => simp [depth] at h
    | succ f => simp [EvalFuel, Eval]
theorem identLoopWith_of_depth_le :
    ∀ (ts : List Node) (fuel len i : Nat) (acc : List Node) (env : formatEnvironment),
      depthList ts ≤ fuel →
      formatIdentiferListLoopWith (EvalFuel fuel) len ts i acc env =
        some (formatIdentiferListLoop len ts i acc env)
  | [], fuel, len, i, acc, env, _ => by
    simp [formatIdentiferListLoopWith, formatIdentiferListLoop]
  | t :: ts, fuel, len, i, acc, env, h => by
    simp only [depthList, max_le_iff] at h
    have h1 := EvalFuel_of_depth_le t fuel env h.1
    simp only [formatIdentiferListLoopWith, formatIdentiferListLoop, h1]
    exact identLoopWith_of_depth_le ts fuel len (i + 1) _ _ h.2
theorem tokenLoopWith_of_depth_le :
    ∀ (ts : List Node) (fuel : Nat) (acc : List Node) (env : formatEnvironment),
      depthList ts ≤ fuel →
      formatTokenListLoopWith (EvalFuel fuel) ts acc env =
        some (formatTokenListLoop ts acc env)
  | [], fuel, acc, env, _ => by
    simp [formatTokenListLoopWith, formatTokenListLoop]
  | t :: ts, fuel, acc, env, h => by
    simp only [depthList, max_le_iff] at h
    have h1 := EvalFuel_of_depth_le t fuel env h.1
    simp only [formatTokenListLoopWith, formatTokenListLoop, h1]
    exact tokenLoopWith_of_depth_le ts fuel _ _ h.2
end

mutual
theorem EvalFuel_of_lt_depth :
    ∀ (t : Node) (fuel : Nat) (env : formatEnvironment), fuel < depth t →
      EvalFuel fuel t env = none
  | Node.Item tok, fuel, env, h => by
    cases fuel with
    | zero => rfl
    | succ f => simp [depth] at h
  | Node.MultiKeyword phrase, fuel, env, h => by
    cases fuel with
    | zero => rfl
    | succ f => simp [depth] at h
  | Node.Aliased RealName AliasedName As IsAs, fuel, env, h => by
    cases fuel with
    | zero => rfl
    | succ f =>
      simp only [depth, Nat.add_lt_add_iff_right, lt_max_iff] at h
      simp only [EvalFuel]
      rcases h with h | h
      · rw [EvalFuel_of_lt_depth RealName f env h]
      · cases hR : EvalFuel f RealName env with
        | none => rfl
        | some p => simp only [EvalFuel_of_lt_depth AliasedName f p.2 h]
  | Node.Identifer tok, fuel, env, h => by
    cases fuel with
    | zero => rfl
    | succ f => simp [depth] at h
  | Node.MemberIdentifer Parent period Child, fuel, env, h => by
    cases fuel with
    | zero => rfl
    | succ f =>
      simp only [depth, Nat.add_lt_add_iff_right, lt_max_iff] at h
      simp only [EvalFuel]
      rcases h with h | h
      · rw [EvalFuel_of_lt_depth Parent f env h]
      · cases hR : EvalFuel f Parent env with
        | none => rfl
        | some p => simp only [EvalFuel_of_lt_depth Child f p.2 h]
  | Node.Operator Left Operator Right, fuel, env, h => by
    cases fuel with
    | zero => rfl
    | succ f =>
      simp only [depth, Nat.add_lt_add_iff_right, lt_max_iff] at h
      simp only [EvalFuel]
      rcases h with h | h
      · rw [EvalFuel_of_lt_depth Left f env h]
      · cases hR : EvalFuel f Left env with
        | none => rfl
        | some p => simp only [EvalFuel_of_lt_depth Right f p.2 h]
  | Node.Comparison Left Comparison Right, fuel, env, h => by
    cases fuel with
    | zero => rfl
    | succ f =>
      simp only [depth, Nat.add_lt_add_iff_right, lt_max_iff] at h
      simp only [EvalFuel]
      rcases h with h | h
      · rw [EvalFuel_of_lt_depth Left f env h]
      · cases hR : EvalFuel f Left env with
        | none => rfl
        | some p => simp only [EvalFuel_of_lt_depth Right f p.2 h]
  | Node.Parenthesis lparen Inner rparen, fuel, env, h => by
    cases fuel with
    | zero => rfl
    | succ f =>
      simp only [depth, Nat.add_lt_add_iff_right] at h
      simp only [EvalFuel]
      rw [EvalFuel_of_lt_depth Inner f env.indentLevelUp h]
  | Node.IdentiferList idents commas, fuel, env, h => by
    cases fuel with
    | zero => rfl
    | succ f =>
      simp only [depth, Nat.add_lt_add_iff_right] at h
      simp only [EvalFuel]
      rw [identLoopWith_of_lt_depth idents f idents.length 0 [] env h]
  | Node.TokenList tag toks, fuel, env, h => by
    cases fuel with
    | zero => rfl
    | succ f =>
      simp only [depth, Nat.add_lt_add_iff_right] at h
      simp only [EvalFuel]
      rw [tokenLoopWith_of_lt_depth toks f [] env h]
  | Node.ItemWith Toks, fuel, env, h => by
    cases fuel with
    | zero => rfl
    | succ f =>
      simp only [depth, Nat.add_lt_add_iff_right] at h
      simp only [EvalFuel]
      rw [tokenLoopWith_of_lt_depth Toks f [] env h]
  | Node.Leaf tok, fuel, env, h => by
    cases fuel with
    | zero => rfl
    | succ f => simp [depth] at h
  | Node.Synthetic m, fuel, env, h => by
    cases fuel with
    | zero => rfl
    | succ f => simp [depth] at h
theorem identLoopWith_of_lt_depth :
    ∀ (ts : List Node) (fuel len i : Nat) (acc : List Node) (env : formatEnvironment),
      fuel < depthList ts →
      formatIdentiferListLoopWith (EvalFuel fuel) len ts i acc env = none
  | [], fuel, len, i, acc, env, h => by simp [depthList] at h
  | t :: ts, fuel, len, i, acc, env, h => by
    simp only [depthList, lt_max_iff] at h
    simp only [formatIdentiferListLoopWith]
    rcases h with h | h
    · rw [EvalFuel_of_lt_depth t fuel env h]
    · cases hR : EvalFuel fuel t env with
      | none => rfl
      | some p => exact identLoopWith_of_lt_depth ts fuel len (i + 1) _ _ h
theorem tokenLoopWith_of_lt_depth :
    ∀ (ts : List Node) (fuel : Nat) (acc : List Node) (env : formatEnvironment),
      fuel < depthList ts →
      formatTokenListLoopWith (EvalFuel fuel) ts acc env = none
  | [], fuel, acc, env, h => by simp [depthList] at h
  | t :: ts, fuel, acc, env, h => by
    simp only [depthList, lt_max_iff] at h
    simp only [formatTokenListLoopWith]
    rcases h with h | h
    · rw [EvalFuel_of_lt_depth t fuel env h]
    · cases hR : EvalFuel fuel t env with
      | none => rfl
      | some p => exact tokenLoopWith_of_lt_depth ts fuel _ _ h
end

theorem depth_pos (t : Node) : 0 < depth t := by
  cases t <;> simp [depth]

/-- C7: `Eval` is total, and the calls it makes descend into the tree: run
with a bound on the depth of nested calls, it returns the value of `Eval` for
every bound from the nesting depth of the tree upwards, and runs out for every
smaller bound.  So no dispatch case fails, and every recursive call is on a
strictly shallower sub-tree of its argument. -/
theorem Eval_total_within_depth (t : Node) (env : formatEnvironment) (k : Nat) :
    EvalFuel (depth t + k) t env = some (Eval t env) ∧
      EvalFuel (depth t - (k + 1)) t env = none :=
  ⟨EvalFuel_of_depth_le t (depth t + k) env (Nat.le_add_right _ _),
   EvalFuel_of_lt_depth t (depth t - (k + 1)) env (by have := depth_pos t; omega)⟩

/-! ## C8: the fragments of a parenthesis -/

/-- C8: for every Parenthesis and every entry level `n`, the wrapper built by
`formatParenthesis` holds, in this order and with nothing else: the open-paren
marker, a line break, the indent markers of level `n + 1`, the result of
`Eval` on the inner content started at level `n + 1`, a line break, the indent
markers of level `n`, the close-paren marker. -/
theorem formatParenthesis_fragments (lparen rparen : SQLToken) (Inner : Node) (n : Int) :
    (formatParenthesis Inner { indentLevel := n }).1 =
        Node.ItemWith
          ([lparenNode] ++ [linebreakNode] ++
            formatEnvironment.genIndent { indentLevel := n + 1 } ++
            [(Eval Inner { indentLevel := n + 1 }).1] ++ [linebreakNode] ++
            formatEnvironment.genIndent { indentLevel := n } ++ [rparenNode]) ∧
      Eval (Node.Parenthesis lparen Inner rparen) { indentLevel := n } =
        formatParenthesis Inner { indentLevel := n } :=
  ⟨rfl, rfl⟩

/-! ## C9, C10: the item rules around the leaf -/

/-- C9: for an Item whose keyword is one of FROM, JOIN, WHERE, HAVING, LIMIT,
UNION, VALUES, SET, EXCEPT and entry level `n`, the fragments before the leaf
are one line break and then the indent markers of the decremented level
`n - 1` (`max 0 (n - 1)` of them), nothing else; what follows the leaf is the
whitespace of JOIN and LIMIT and the indent-after of FROM and WHERE. -/
theorem formatItem_outdent_before (kw : String) (n : Int)
    (h : kw ∈ ["FROM", "JOIN", "WHERE", "HAVING", "LIMIT", "UNION", "VALUES", "SET", "EXCEPT"]) :
    (formatItem (Node.Item ⟨Kind.SQLKeyword, kw⟩) { indentLevel := n }).1 =
        Node.ItemWith
          ([linebreakNode] ++ formatEnvironment.genIndent { indentLevel := n - 1 } ++
            [Node.Item ⟨Kind.SQLKeyword, kw⟩] ++
            (if kw = "JOIN" ∨ kw = "LIMIT" then [whitespaceNode] else []) ++
            (if kw = "FROM" ∨ kw = "WHERE" then
              linebreakNode :: formatEnvironment.genIndent { indentLevel := n }
             else [])) ∧
      formatEnvironment.genIndent { indentLevel := n - 1 } =
        List.replicate (max 0 (n - 1)).toNat indentNode ∧
      (formatItem (Node.Item ⟨Kind.SQLKeyword, kw⟩) { indentLevel := n }).2.indentLevel =
        (if kw = "FROM" ∨ kw = "WHERE" then n else n - 1) := by
  have hmax : (max 0 (n - 1)).toNat = (n - 1).toNat := by omega
  simp only [List.mem_cons, List.mem_singleton, List.not_mem_nil, or_false] at h
  rcases h with rfl | rfl | rfl | rfl | rfl | rfl | rfl | rfl | rfl <;>
    simp [formatItem, NodeMatcher.IsMatch, keywordText, tokenKind, unshift,
      formatEnvironment.indentLevelUp, formatEnvironment.indentLevelDown, genIndent_eq, hmax]

/-- C9 at FROM, entered at level 1: a line break, no indent marker, the leaf,
then the indent-after fragments; the level is back at 1. -/
theorem formatItem_outdent_before_witness :
    (formatItem (Node.Item ⟨Kind.SQLKeyword, "FROM"⟩) { indentLevel := 1 }).1 =
        Node.ItemWith
          ([linebreakNode] ++ formatEnvironment.genIndent { indentLevel := 1 - 1 } ++
            [Node.Item ⟨Kind.SQLKeyword, "FROM"⟩] ++
            (if "FROM" = "JOIN" ∨ "FROM" = "LIMIT" then [whitespaceNode] else []) ++
            (if "FROM" = "FROM" ∨ "FROM" = "WHERE" then
              linebreakNode :: formatEnvironment.genIndent { indentLevel := 1 }
             else [])) ∧
      formatEnvironment.genIndent { indentLevel := 1 - 1 } =
        List.replicate (max 0 (1 - 1 : Int)).toNat indentNode ∧
      (formatItem (Node.Item ⟨Kind.SQLKeyword, "FROM"⟩) { indentLevel := 1 }).2.indentLevel =
        (if "FROM" = "FROM" ∨ "FROM" = "WHERE" then 1 else 1 - 1) :=
  formatItem_outdent_before "FROM" 1 (by decide)

/-- C10: for an Item that is the keyword SELECT, FROM or WHERE or an
opening-parenthesis token, with `m` the level in force when the leaf is
emitted (the entry level `n` for SELECT and the parenthesis token, `n - 1` for
FROM and WHERE): what precedes the leaf is nothing (SELECT, parenthesis) or a
line break and the indent markers of level `m` (FROM, WHERE); what follows the
leaf is one line break and the indent markers of level `m + 1`; the level on
return is `m + 1`. -/
theorem formatItem_indent_after (tok : SQLToken) (n m : Int) (before : List Node)
    (h : ((tok = ⟨Kind.SQLKeyword, "SELECT"⟩ ∨ tok.Kind = Kind.LParen) ∧ m = n ∧ before = []) ∨
      ((tok = ⟨Kind.SQLKeyword, "FROM"⟩ ∨ tok = ⟨Kind.SQLKeyword, "WHERE"⟩) ∧ m = n - 1 ∧
        before = linebreakNode :: formatEnvironment.genIndent { indentLevel := m })) :
    formatItem (Node.Item tok) { indentLevel := n } =
      (Node.ItemWith
        (before ++ [Node.Item tok] ++ [linebreakNode] ++
          formatEnvironment.genIndent { indentLevel := m + 1 }),
       { indentLevel := m + 1 }) := by
  rcases h with ⟨ht, rfl, rfl⟩ | ⟨ht, rfl, rfl⟩
  · rcases ht with rfl | ht
    · simp [formatItem, NodeMatcher.IsMatch, keywordText, tokenKind, unshift,
        formatEnvironment.indentLevelUp, formatEnvironment.indentLevelDown]
    · obtain ⟨k, v⟩ := tok
      simp only at ht
      subst ht
      simp [formatItem, NodeMatcher.IsMatch, keywordText, tokenKind, unshift,
        formatEnvironment.indentLevelUp, formatEnvironment.indentLevelDown]
  · rcases ht with rfl | rfl <;>
      simp [formatItem, NodeMatcher.IsMatch, keywordText, tokenKind, unshift,
        formatEnvironment.indentLevelUp, formatEnvironment.indentLevelDown]

/-- C10 at SELECT, entered at level 0: the leaf, a line break and the indent
markers of level 1; the level on return is 1. -/
theorem formatItem_indent_after_witness :
    formatItem (Node.Item ⟨Kind.SQLKeyword, "SELECT"⟩) { indentLevel := 0 } =
      (Node.ItemWith
        ([] ++ [Node.Item ⟨Kind.SQLKeyword, "SELECT"⟩] ++ [linebreakNode] ++
          formatEnvironment.genIndent { indentLevel := 0 + 1 }),
       { indentLevel := 0 + 1 }) :=
  formatItem_indent_after ⟨Kind.SQLKeyword, "SELECT"⟩ 0 0 []
    (Or.inl ⟨Or.inl rfl, rfl, rfl⟩)

/-! ## C11, C12: ON, AND, OR -/

/-- C11: for the keyword item ON and entry level `n`, the wrapper of
`formatItem` holds exactly a line break, the indent markers of level `n + 1`,
the ON leaf and a whitespace marker, and the level on return is `n + 1`.
When a JOIN item is formatted at entry level `n ≥ 1` and an ON item follows in
the environment JOIN left behind, the JOIN line carries `n - 1` indent markers
and the ON line `n`, one more. -/
theorem formatItem_ON (n : Int) :
    formatItem (Node.Item ⟨Kind.SQLKeyword, "ON"⟩) { indentLevel := n } =
        (Node.ItemWith
          ([linebreakNode] ++ formatEnvironment.genIndent { indentLevel := n + 1 } ++
            [Node.Item ⟨Kind.SQLKeyword, "ON"⟩, whitespaceNode]),
         { indentLevel := n + 1 }) ∧
      (1 ≤ n →
        (formatItem (Node.Item ⟨Kind.SQLKeyword, "JOIN"⟩) { indentLevel := n }).1 =
            Node.ItemWith
              ([linebreakNode] ++ List.replicate (n - 1).toNat indentNode ++
                [Node.Item ⟨Kind.SQLKeyword, "JOIN"⟩, whitespaceNode]) ∧
          (formatItem (Node.Item ⟨Kind.SQLKeyword, "ON"⟩)
              (formatItem (Node.Item ⟨Kind.SQLKeyword, "JOIN"⟩) { indentLevel := n }).2).1 =
            Node.ItemWith
              ([linebreakNode] ++ List.replicate ((n - 1).toNat + 1) indentNode ++
                [Node.Item ⟨Kind.SQLKeyword, "ON"⟩, whitespaceNode])) := by
  refine ⟨?_, ?_⟩
  · simp [formatItem, NodeMatcher.IsMatch, keywordText, tokenKind, unshift,
      formatEnvironment.indentLevelUp, formatEnvironment.indentLevelDown]
  · intro h
    have e : (n - 1).toNat + 1 = n.toNat := by omega
    rw [e]
    simp [formatItem, NodeMatcher.IsMatch, keywordText, tokenKind, unshift,
      formatEnvironment.indentLevelUp, formatEnvironment.indentLevelDown, genIndent_eq]

/-- C11 at entry level 1: JOIN falls to level 0 and carries no indent marker,
the ON that follows is back at level 1 and carries one. -/
theorem formatItem_ON_witness :
    (formatItem (Node.Item ⟨Kind.SQLKeyword, "JOIN"⟩) { indentLevel := 1 }).1 =
        Node.ItemWith
          ([linebreakNode] ++ List.replicate ((1 : Int) - 1).toNat indentNode ++
            [Node.Item ⟨Kind.SQLKeyword, "JOIN"⟩, whitespaceNode]) ∧
      (formatItem (Node.Item ⟨Kind.SQLKeyword, "ON"⟩)
          (formatItem (Node.Item ⟨Kind.SQLKeyword, "JOIN"⟩) { indentLevel := 1 }).2).1 =
        Node.ItemWith
          ([linebreakNode] ++ List.replicate (((1 : Int) - 1).toNat + 1) indentNode ++
            [Node.Item ⟨Kind.SQLKeyword, "ON"⟩, whitespaceNode]) :=
  (formatItem_ON 1).2 (by decide)

/-- C12: for the keyword item AND or OR and level `n`, the wrapper of
`formatItem` holds exactly a line break, the indent markers of the current
level `n`, the leaf and a whitespace marker; the level on return is `n`. -/
theorem formatItem_AND_OR (kw : String) (n : Int) (h : kw = "AND" ∨ kw = "OR") :
    formatItem (Node.Item ⟨Kind.SQLKeyword, kw⟩) { indentLevel := n } =
      (Node.ItemWith
        ([linebreakNode] ++ formatEnvironment.genIndent { indentLevel := n } ++
          [Node.Item ⟨Kind.SQLKeyword, kw⟩, whitespaceNode]),
       { indentLevel := n }) := by
  rcases h with rfl | rfl <;>
    simp [formatItem, NodeMatcher.IsMatch, keywordText, tokenKind, unshift,
      formatEnvironment.indentLevelUp, formatEnvironment.indentLevelDown]

/-- C12 at AND, level 1. -/
theorem formatItem_AND_OR_witness :
    formatItem (Node.Item ⟨Kind.SQLKeyword, "AND"⟩) { indentLevel := 1 } =
      (Node.ItemWith
        ([linebreakNode] ++ formatEnvironment.genIndent { indentLevel := 1 } ++
          [Node.Item ⟨Kind.SQLKeyword, "AND"⟩, whitespaceNode]),
       { indentLevel := 1 }) :=
  formatItem_AND_OR "AND" 1 (Or.inl rfl)

/-! ## C13: join phrases -/

/-- C13: for a MultiKeyword whose phrase is one of the seven join phrases and
entry level `n`, both rules fire: the wrapper of `formatMultiKeyword` holds
exactly a line break, the indent markers of level `n - 1`, the phrase leaf and
a whitespace marker, and the level on return is `n - 1`. -/
theorem formatMultiKeyword_join (phrase : String) (n : Int) (h : phrase ∈ joinKeywords) :
    formatMultiKeyword (Node.MultiKeyword phrase) { indentLevel := n } =
        (Node.ItemWith
          ([linebreakNode] ++ formatEnvironment.genIndent { indentLevel := n - 1 } ++
            [Node.MultiKeyword phrase, whitespaceNode]),
         { indentLevel := n - 1 }) ∧
      Eval (Node.MultiKeyword phrase) { indentLevel := n } =
        formatMultiKeyword (Node.MultiKeyword phrase) { indentLevel := n } := by
  refine ⟨?_, rfl⟩
  have hm : NodeMatcher.IsMatch { ExpectKeyword := joinKeywords } (Node.MultiKeyword phrase)
      = true := by
    simp [NodeMatcher.IsMatch, keywordText, tokenKind, h]
  simp [formatMultiKeyword, hm, unshift, formatEnvironment.indentLevelDown]

/-- C13 at LEFT OUTER JOIN, level 1. -/
theorem formatMultiKeyword_join_witness :
    formatMultiKeyword (Node.MultiKeyword "LEFT OUTER JOIN") { indentLevel := 1 } =
        (Node.ItemWith
          ([linebreakNode] ++ formatEnvironment.genIndent { indentLevel := 1 - 1 } ++
            [Node.MultiKeyword "LEFT OUTER JOIN", whitespaceNode]),
         { indentLevel := 1 - 1 }) ∧
      Eval (Node.MultiKeyword "LEFT OUTER JOIN") { indentLevel := 1 } =
        formatMultiKeyword (Node.MultiKeyword "LEFT OUTER JOIN") { indentLevel := 1 } :=
  formatMultiKeyword_join "LEFT OUTER JOIN" 1 (by decide)

/-! ## C14: aliases -/

/-- C14: with the alias keyword present the fragments of `formatAliased` are
`Eval` of the real name, a whitespace marker, the original AS node, a
whitespace marker, `Eval` of the alias name; without it they are `Eval` of the
real name, a whitespace marker, `Eval` of the alias name.  In both cases the
real name is laid out first and the alias name in the environment the real
name left behind, and the final environment is the same. -/
theorem formatAliased_fragments (RealName AliasedName As : Node) (env : formatEnvironment) :
    formatAliased RealName AliasedName As true env =
        (Node.ItemWith
          [(Eval RealName env).1, whitespaceNode, As, whitespaceNode,
            (Eval AliasedName (Eval RealName env).2).1],
         (Eval AliasedName (Eval RealName env).2).2) ∧
      formatAliased RealName AliasedName As false env =
        (Node.ItemWith
          [(Eval RealName env).1, whitespaceNode,
            (Eval AliasedName (Eval RealName env).2).1],
         (Eval AliasedName (Eval RealName env).2).2) ∧
      (∀ IsAs, Eval (Node.Aliased RealName AliasedName As IsAs) env =
        formatAliased RealName AliasedName As IsAs env) := by
  refine ⟨rfl, rfl, ?_⟩
  intro IsAs
  cases IsAs <;> rfl

/-! ## C15, C16: member identifiers, operators and comparisons -/

/-- C15: a Comparison whose operands are MemberIdentifiers over plain
identifiers (`P.C` and `P'.C'`) with symbol `s` renders as
`P.C s P'.C'`: a bare period inside each member identifier, one space on each
side of the symbol; the indent level is unchanged. -/
theorem render_Comparison_of_members (unit : String) (P C P' C' sym dot dot' : SQLToken)
    (env : formatEnvironment) :
    render unit
        (Eval (Node.Comparison
          (Node.MemberIdentifer (Node.Identifer P) dot (Node.Identifer C))
          (Node.Item sym)
          (Node.MemberIdentifer (Node.Identifer P') dot' (Node.Identifer C'))) env).1 =
        P.Value ++ "." ++ C.Value ++ " " ++ sym.Value ++ " " ++ P'.Value ++ "." ++ C'.Value ∧
      (Eval (Node.Comparison
          (Node.MemberIdentifer (Node.Identifer P) dot (Node.Identifer C))
          (Node.Item sym)
          (Node.MemberIdentifer (Node.Identifer P') dot' (Node.Identifer C'))) env).2 = env := by
  refine ⟨?_, rfl⟩
  apply String.ext
  simp [Eval, formatIdentifer, render, renderList, whitespaceNode, periodNode, Marker.text,
    String.data_append]

/-- C16: `formatOperator` and `formatComparison` are the same function: on the
same left operand, symbol and right operand they give the same fragments,
`Eval` of the left operand, whitespace, the symbol, whitespace, `Eval` of the
right operand laid out in the environment the left operand left behind, and
the same final environment. -/
theorem formatOperator_eq_formatComparison (L sym R : Node) (env : formatEnvironment) :
    formatOperator L sym R env = formatComparison L sym R env ∧
      formatOperator L sym R env =
        (Node.ItemWith
          [(Eval L env).1, whitespaceNode, sym, whitespaceNode, (Eval R (Eval L env).2).1],
         (Eval R (Eval L env).2).2) ∧
      Eval (Node.Operator L sym R) env = formatOperator L sym R env ∧
      Eval (Node.Comparison L sym R) env = formatComparison L sym R env :=
  ⟨rfl, rfl, rfl, rfl⟩

/-! ## C17: identifier lists -/

theorem formatIdentiferListLoop_eq_join :
    ∀ (ts : List Node) (len i : Nat) (acc : List Node) (env : formatEnvironment),
      len = i + ts.length →
      formatIdentiferListLoop len ts i acc env =
        (acc ++ (joinIdentifers ts env).1, (joinIdentifers ts env).2)
  | [], len, i, acc, env, _ => by simp [formatIdentiferListLoop, joinIdentifers]
  | [e], len, i, acc, env, h => by
    have hi : (i : Int) = (len : Int) - 1 := by simp at h; omega
    simp [formatIdentiferListLoop, joinIdentifers, hi]
  | e :: e2 :: rest, len, i, acc, env, h => by
    have hi : ¬ (i : Int) = (len : Int) - 1 := by simp at h; omega
    have ih := formatIdentiferListLoop_eq_join (e2 :: rest) len (i + 1)
      (acc ++ [(Eval e env).1] ++ [commaNode, linebreakNode] ++ (Eval e env).2.genIndent)
      (Eval e env).2 (by simp at h ⊢; omega)
    rw [formatIdentiferListLoop]
    simp only [ne_eq, hi, not_false_eq_true, if_true]
    rw [ih]
    simp [joinIdentifers]

theorem isSynthetic_Eval (t : Node) (env : formatEnvironment) (h : isSynthetic t = false) :
    isSynthetic (Eval t env).1 = false := by
  cases t with
  | Aliased RealName AliasedName As IsAs => cases IsAs <;> rfl
  | Synthetic m => simp [isSynthetic] at h
  | _ => rfl

theorem countComma_cons_of_not_synthetic (n : Node) (ns : List Node)
    (h : isSynthetic n = false) : countComma (n :: ns) = countComma ns := by
  cases n <;> simp_all [isSynthetic, countComma]

theorem countComma_replicate_indent (k : Nat) (ns : List Node) :
    countComma (List.replicate k indentNode ++ ns) = countComma ns := by
  induction k with
  | zero => simp
  | succ k ih => simp [List.replicate_succ, indentNode, countComma] at ih ⊢; exact ih

theorem countComma_joinIdentifers :
    ∀ (ts : List Node) (env : formatEnvironment), ts ≠ [] →
      (∀ e ∈ ts, isSynthetic e = false) →
      countComma (joinIdentifers ts env).1 + 1 = ts.length
  | [], _, h, _ => absurd rfl h
  | [e], env, _, hs => by
    have h1 := isSynthetic_Eval e env (hs e (by simp))
    simp [joinIdentifers, countComma_cons_of_not_synthetic _ _ h1, countComma]
  | e :: e2 :: rest, env, _, hs => by
    have h1 := isSynthetic_Eval e env (hs e (by simp))
    have ih := countComma_joinIdentifers (e2 :: rest) (Eval e env).2 (by simp)
      (fun x hx => hs x (List.mem_cons_of_mem _ hx))
    simp only [joinIdentifers]
    rw [countComma_cons_of_not_synthetic _ _ h1]
    simp only [commaNode, linebreakNode, countComma, genIndent_eq,
      countComma_replicate_indent]
    simp only [List.length_cons] at ih ⊢
    omega

/-- C17: the fragments of `formatIdentiferList` are the results of `Eval` on
the elements, in their order and laid out left to right in one environment,
joined by the separator "comma marker, line break, indent markers of the level
current at that point", with no separator after the last element; for a
non-empty list of `k` parsed elements they hold exactly `k - 1` comma
markers. -/
theorem formatIdentiferList_joined (idents : List Node) (commas : List SQLToken)
    (env : formatEnvironment) :
    formatIdentiferList idents env =
        (Node.ItemWith (joinIdentifers idents env).1, (joinIdentifers idents env).2) ∧
      Eval (Node.IdentiferList idents commas) env = formatIdentiferList idents env ∧
      (idents ≠ [] → (∀ e ∈ idents, isSynthetic e = false) →
        countComma (joinIdentifers idents env).1 + 1 = idents.length) := by
  refine ⟨?_, rfl, countComma_joinIdentifers idents env⟩
  unfold formatIdentiferList
  rw [formatIdentiferListLoop_eq_join idents idents.length 0 [] env (by simp)]
  simp

/-- C17 at the list `a, b` at level 1: two elements, one comma marker. -/
theorem formatIdentiferList_joined_witness :
    countComma
        (joinIdentifers [Node.Identifer ⟨Kind.Ident, "a"⟩, Node.Identifer ⟨Kind.Ident, "b"⟩]
          { indentLevel := 1 }).1 + 1 =
      [Node.Identifer ⟨Kind.Ident, "a"⟩, Node.Identifer ⟨Kind.Ident, "b"⟩].length :=
  (formatIdentiferList_joined
    [Node.Identifer ⟨Kind.Ident, "a"⟩, Node.Identifer ⟨Kind.Ident, "b"⟩] [⟨Kind.Comma, ","⟩]
    { indentLevel := 1 }).2.2 (by simp) (by simp [isSynthetic])

/-! ## C18: the generic composite rewriter -/

theorem formatTokenListLoop_eq_fold :
    ∀ (ts : List Node) (acc : List Node) (env : formatEnvironment),
      formatTokenListLoop ts acc env =
        (acc ++ (evalChildren ts env).1, (evalChildren ts env).2)
  | [], acc, env => by simp [formatTokenListLoop, evalChildren]
  | t :: ts, acc, env => by
    rw [formatTokenListLoop]
    simp only []
    rw [formatTokenListLoop_eq_fold ts]
    simp [evalChildren]

theorem evalChildren_length :
    ∀ (ts : List Node) (env : formatEnvironment), (evalChildren ts env).1.length = ts.length
  | [], env => by simp [evalChildren]
  | t :: ts, env => by simp [evalChildren, evalChildren_length ts]

/-- C18: for an ordered-children node without a specialized formatter,
`formatTokenList` returns the same composite with its children replaced by the
results of `Eval` on them, one result per child and in their order; the walk
is a fold through one environment, the next sibling being laid out in the
environment the previous one left behind. -/
theorem formatTokenList_folds (tag : Nat) (toks : List Node) (env : formatEnvironment) :
    Eval (Node.TokenList tag toks) env = formatTokenList (Node.TokenList tag) toks env ∧
      formatTokenList (Node.TokenList tag) toks env =
        (Node.TokenList tag (evalChildren toks env).1, (evalChildren toks env).2) ∧
      (evalChildren toks env).1.length = toks.length ∧
      (∀ c cs, evalChildren (c :: cs) env =
        ((Eval c env).1 :: (evalChildren cs (Eval c env).2).1,
         (evalChildren cs (Eval c env).2).2)) := by
  refine ⟨rfl, ?_, evalChildren_length toks env, fun _ _ => rfl⟩
  unfold formatTokenList
  rw [formatTokenListLoop_eq_fold toks [] env]
  simp

/-! ## C19: the indent counter is neither kept non-negative nor balanced -/

/-- C19: from a fresh environment (level 0), `Eval` on the composite with the
keyword children SELECT, FROM, JOIN, JOIN ends at level `-1`, and on the
composite with the children SELECT, `a`, FROM, `t` it ends at level 1.  The
first run returns a result (no error) within nesting depth 2. -/
theorem Eval_indentLevel_unbalanced :
    (Eval (Node.TokenList 0
        [Node.Item ⟨Kind.SQLKeyword, "SELECT"⟩, Node.Item ⟨Kind.SQLKeyword, "FROM"⟩,
         Node.Item ⟨Kind.SQLKeyword, "JOIN"⟩, Node.Item ⟨Kind.SQLKeyword, "JOIN"⟩])
        { indentLevel := 0 }).2.indentLevel = -1 ∧
      (Eval (Node.TokenList 0
        [Node.Item ⟨Kind.SQLKeyword, "SELECT"⟩, Node.Identifer ⟨Kind.Ident, "a"⟩,
         Node.Item ⟨Kind.SQLKeyword, "FROM"⟩, Node.Identifer ⟨Kind.Ident, "t"⟩])
        { indentLevel := 0 }).2.indentLevel = 1 ∧
      (EvalFuel 2 (Node.TokenList 0
        [Node.Item ⟨Kind.SQLKeyword, "SELECT"⟩, Node.Item ⟨Kind.SQLKeyword, "FROM"⟩,
         Node.Item ⟨Kind.SQLKeyword, "JOIN"⟩, Node.Item ⟨Kind.SQLKeyword, "JOIN"⟩])
        { indentLevel := 0 }).map (fun r => r.2.indentLevel) = some (-1) := by
  refine ⟨?_, ?_, ?_⟩ <;> decide

/-! ## C20: the level after an item -/

theorem IsMatch_Item (nm : NodeMatcher) (k : Kind) (v : String) :
    nm.IsMatch (Node.Item ⟨k, v⟩) =
      ((decide (k = Kind.SQLKeyword) && nm.ExpectKeyword.contains v) ||
        nm.ExpectTokens.contains k) := by
  by_cases hk : k = Kind.SQLKeyword <;> simp [NodeMatcher.IsMatch, keywordText, tokenKind, hk]

theorem formatItem_indentLevel (node : Node) (n : Int) :
    (formatItem node { indentLevel := n }).2.indentLevel =
      n - (if NodeMatcher.IsMatch { ExpectKeyword :=
            ["FROM", "JOIN", "WHERE", "HAVING", "LIMIT", "UNION", "VALUES", "SET", "EXCEPT"] }
            node then 1 else 0)
        + (if NodeMatcher.IsMatch { ExpectKeyword := ["ON"] } node then 1 else 0)
        + (if NodeMatcher.IsMatch
            { ExpectKeyword := ["SELECT", "FROM", "WHERE"], ExpectTokens := [Kind.LParen] }
            node then 1 else 0) := by
  cases h3 : NodeMatcher.IsMatch { ExpectKeyword :=
        ["FROM", "JOIN", "WHERE", "HAVING", "LIMIT", "UNION", "VALUES", "SET", "EXCEPT"] } node <;>
  cases h4 : NodeMatcher.IsMatch { ExpectKeyword := ["ON"] } node <;>
  cases h6 : NodeMatcher.IsMatch
    { ExpectKeyword := ["SELECT", "FROM", "WHERE"], ExpectTokens := [Kind.LParen] } node <;>
    simp [formatItem, h3, h4, h6, formatEnvironment.indentLevelUp,
      formatEnvironment.indentLevelDown]

/-- C20: for every Item and entry level `n`, the level after `formatItem` is
fixed by the leaf alone and within one of `n`: `n + 1` for the keywords SELECT
and ON and for an opening-parenthesis token, `n` for FROM and WHERE, `n - 1`
for JOIN, HAVING, LIMIT, UNION, VALUES, SET and EXCEPT, `n` for every other
item (AND, OR, BETWEEN, USING and a comma token among them); an item matching
no rule comes back as a wrapper holding only the original leaf. -/
theorem formatItem_level_by_leaf (tok : SQLToken) (n : Int) :
    ((tok = ⟨Kind.SQLKeyword, "SELECT"⟩ ∨ tok = ⟨Kind.SQLKeyword, "ON"⟩ ∨
          tok.Kind = Kind.LParen) →
        (formatItem (Node.Item tok) { indentLevel := n }).2.indentLevel = n + 1) ∧
      ((tok = ⟨Kind.SQLKeyword, "FROM"⟩ ∨ tok = ⟨Kind.SQLKeyword, "WHERE"⟩) →
        (formatItem (Node.Item tok) { indentLevel := n }).2.indentLevel = n) ∧
      ((tok.Kind = Kind.SQLKeyword ∧
          tok.Value ∈ ["JOIN", "HAVING", "LIMIT", "UNION", "VALUES", "SET", "EXCEPT"]) →
        (formatItem (Node.Item tok) { indentLevel := n }).2.indentLevel = n - 1) ∧
      ((tok.Kind ≠ Kind.LParen ∧
          ¬ (tok.Kind = Kind.SQLKeyword ∧
            tok.Value ∈ ["SELECT", "ON", "FROM", "WHERE", "JOIN", "HAVING", "LIMIT", "UNION",
              "VALUES", "SET", "EXCEPT"])) →
        (formatItem (Node.Item tok) { indentLevel := n }).2.indentLevel = n) ∧
      (∃ d : Int, -1 ≤ d ∧ d ≤ 1 ∧
        ∀ m : Int, (formatItem (Node.Item tok) { indentLevel := m }).2.indentLevel = m + d) ∧
      ((tok.Kind ≠ Kind.LParen ∧ tok.Kind ≠ Kind.Comma ∧
          ¬ (tok.Kind = Kind.SQLKeyword ∧
            tok.Value ∈ ["JOIN", "ON", "AND", "OR", "LIMIT", "BETWEEN", "USING", "FROM",
              "WHERE", "HAVING", "UNION", "VALUES", "SET", "EXCEPT", "SELECT"])) →
        formatItem (Node.Item tok) { indentLevel := n } =
          (Node.ItemWith [Node.Item tok], { indentLevel := n })) := by
  obtain ⟨k, v⟩ := tok
  refine ⟨?_, ?_, ?_, ?_, ?_, ?_⟩
  · intro h
    rw [formatItem_indentLevel]
    simp only [IsMatch_Item]
    rcases h with h | h | h
    · cases h; simp
    · cases h; simp
    · simp only at h; subst h; simp
  · intro h
    rw [formatItem_indentLevel]
    simp only [IsMatch_Item]
    rcases h with h | h <;> cases h <;> simp
  · rintro ⟨hk, hv⟩
    rw [formatItem_indentLevel]
    simp only [IsMatch_Item]
    simp only at hk hv
    subst hk
    simp only [List.mem_cons, List.mem_singleton, List.not_mem_nil, or_false] at hv
    rcases hv with rfl | rfl | rfl | rfl | rfl | rfl | rfl <;> simp
  · rintro ⟨hk, hv⟩
    rw [formatItem_indentLevel]
    simp only [IsMatch_Item]
    simp only at hk hv
    by_cases hkw : k = Kind.SQLKeyword
    · subst hkw
      simp at hv
      simp [hv]
    · simp [hkw, hk]
  · refine ⟨-(if NodeMatcher.IsMatch { ExpectKeyword :=
            ["FROM", "JOIN", "WHERE", "HAVING", "LIMIT", "UNION", "VALUES", "SET", "EXCEPT"] }
            (Node.Item ⟨k, v⟩) then 1 else 0)
        + (if NodeMatcher.IsMatch { ExpectKeyword := ["ON"] } (Node.Item ⟨k, v⟩) then 1 else 0)
        + (if NodeMatcher.IsMatch
            { ExpectKeyword := ["SELECT", "FROM", "WHERE"], ExpectTokens := [Kind.LParen] }
            (Node.Item ⟨k, v⟩) then 1 else 0), ?_, ?_, ?_⟩
    · split_ifs <;> omega
    · simp only [IsMatch_Item]
      split_ifs with h1 h2 h3 h3 h2 h3 h3 <;> first | omega | (exfalso; simp_all)
    · intro m
      rw [formatItem_indentLevel]
      omega
  · rintro ⟨hk, hc, hv⟩
    simp only at hk hc hv
    have hv2 : k = Kind.SQLKeyword → v ∉ ["JOIN", "ON", "AND", "OR", "LIMIT", "BETWEEN",
        "USING", "FROM", "WHERE", "HAVING", "UNION", "VALUES", "SET", "EXCEPT", "SELECT"] :=
      fun h1 h2 => hv ⟨h1, h2⟩
    have h1 : NodeMatcher.IsMatch { ExpectKeyword := ["JOIN", "ON", "AND", "OR", "LIMIT"] }
        (Node.Item ⟨k, v⟩) = false := by
      rw [IsMatch_Item]; simp; intro h; have := hv2 h; simp_all
    have h2 : NodeMatcher.IsMatch { ExpectKeyword := ["BETWEEN", "USING"] }
        (Node.Item ⟨k, v⟩) = false := by
      rw [IsMatch_Item]; simp; intro h; have := hv2 h; simp_all
    have h3 : NodeMatcher.IsMatch { ExpectKeyword :=
        ["FROM", "JOIN", "WHERE", "HAVING", "LIMIT", "UNION", "VALUES", "SET", "EXCEPT"] }
        (Node.Item ⟨k, v⟩) = false := by
      rw [IsMatch_Item]; simp; intro h; have := hv2 h; simp_all
    have h4 : NodeMatcher.IsMatch { ExpectKeyword := ["ON"] } (Node.Item ⟨k, v⟩) = false := by
      rw [IsMatch_Item]; simp; intro h; have := hv2 h; simp_all
    have h5 : NodeMatcher.IsMatch { ExpectKeyword := ["AND", "OR"] }
        (Node.Item ⟨k, v⟩) = false := by
      rw [IsMatch_Item]; simp; intro h; have := hv2 h; simp_all
    have h6 : NodeMatcher.IsMatch
        { ExpectKeyword := ["SELECT", "FROM", "WHERE"], ExpectTokens := [Kind.LParen] }
        (Node.Item ⟨k, v⟩) = false := by
      rw [IsMatch_Item]; simp [hk]; intro h; have := hv2 h; simp_all
    have h7 : NodeMatcher.IsMatch { ExpectTokens := [Kind.Comma] }
        (Node.Item ⟨k, v⟩) = false := by
      rw [IsMatch_Item]; simp [hc]
    simp [formatItem, h1, h2, h3, h4, h5, h6, h7]

/-- C20 at level 2: SELECT ends at 3, FROM at 2, JOIN at 1, a comma token at 2,
and the number literal `1`, which matches no rule, is wrapped alone. -/
theorem formatItem_level_by_leaf_witness :
    (formatItem (Node.Item ⟨Kind.SQLKeyword, "SELECT"⟩) { indentLevel := 2 }).2.indentLevel
        = 2 + 1 ∧
      (formatItem (Node.Item ⟨Kind.SQLKeyword, "FROM"⟩) { indentLevel := 2 }).2.indentLevel
        = 2 ∧
      (formatItem (Node.Item ⟨Kind.SQLKeyword, "JOIN"⟩) { indentLevel := 2 }).2.indentLevel
        = 2 - 1 ∧
      (formatItem (Node.Item ⟨Kind.Comma, ","⟩) { indentLevel := 2 }).2.indentLevel = 2 ∧
      formatItem (Node.Item ⟨Kind.Number, "1"⟩) { indentLevel := 2 } =
        (Node.ItemWith [Node.Item ⟨Kind.Number, "1"⟩], { indentLevel := 2 }) :=
  ⟨(formatItem_level_by_leaf ⟨Kind.SQLKeyword, "SELECT"⟩ 2).1 (Or.inl rfl),
   (formatItem_level_by_leaf ⟨Kind.SQLKeyword, "FROM"⟩ 2).2.1 (Or.inl rfl),
   (formatItem_level_by_leaf ⟨Kind.SQLKeyword, "JOIN"⟩ 2).2.2.1 ⟨rfl, by decide⟩,
   (formatItem_level_by_leaf ⟨Kind.Comma, ","⟩ 2).2.2.2.1 ⟨by decide, by decide⟩,
   (formatItem_level_by_leaf ⟨Kind.Number, "1"⟩ 2).2.2.2.2.2 ⟨by decide, by decide, by decide⟩⟩

end Formatter
